import Mathlib

/-!
Verification of the Formify file copy/move utility (src/文件复制移动.py).

The program is shallowly embedded: paths are lists of components, the
filesystem is an association list from paths to file states, console
output is a list of structured lines together with a character-level
rendering that mirrors the Python f-strings, and the watchdog event
handler is a pure function from handler state and event to the new
state plus the list of copy invocations it performs.
-/

set_option maxHeartbeats 1000000
set_option maxRecDepth 2048

namespace Formify

/-- A filesystem path, represented by its list of components.
`pathlib.Path` equality on the Python side is modelled by list equality. -/
abbrev FPath := List String

/-- The final name component of a path, modelling `pathlib.Path.name`. -/
def lastName (p : FPath) : String := p.getLastD ""

/-- Character-level rendering of a path, joining components with a
backslash exactly as the Windows path literals of the source are written. -/
def pathChars : FPath → List Char
  | [] => []
  | [c] => c.data
  | c :: rest => c.data ++ '\\' :: pathChars rest

/-- State of a path in the modelled filesystem: a regular file with a
byte size, or a `faulty` entry whose `stat` raises (permission / I/O
error), modelling the exceptional cases caught by the per-file
`try/except` of `copy_files_with_replace`. -/
inductive FileState where
  | file (size : Nat)
  | faulty
  deriving DecidableEq, Repr

/-- The filesystem: an association list from paths to file states.
Lookup takes the first binding, and updates prepend. -/
abbrev FS := List (FPath × FileState)

/-- Look up a path in the filesystem. -/
def FS.look (fs : FS) (p : FPath) : Option FileState := fs.lookup p

/-- Model of `Path.exists()`: the path has an entry (even a faulty one,
whose later `stat` raises). -/
def FS.exi (fs : FS) (p : FPath) : Bool := (fs.look p).isSome

/-- Model of writing a regular file of the given size, as done by
`shutil.copy2`. Prepending shadows any earlier binding. -/
def FS.put (fs : FS) (p : FPath) (sz : Nat) : FS := (p, FileState.file sz) :: fs

/-! ### Decimal rendering of natural numbers (model of Python `str`/f-string) -/

/-- Fuel-driven decimal digit emission, mirroring `Nat.toDigits`. -/
def natToCharsCore : Nat → Nat → List Char → List Char
  | 0, _, acc => acc
  | fuel + 1, n, acc =>
    if n < 10 then Nat.digitChar n :: acc
    else natToCharsCore fuel (n / 10) (Nat.digitChar (n % 10) :: acc)

/-- Decimal rendering of a natural number (most significant digit first). -/
def natToChars (n : Nat) : List Char := natToCharsCore (n + 1) n []

/-- Parse a digit character back into its value. -/
def charVal (c : Char) : Nat := c.toNat - 48

/-- Model of Python `int(...)` on a string of decimal digits. -/
def charsToNat (l : List Char) : Nat := l.foldl (fun a c => a * 10 + charVal c) 0

/-! ### The size formatter `format_size` -/

/-- Round `a / b` to the nearest integer, ties to even.  This is the
rounding Python's `f"{x:.2f}"` performs on the exact value of the
(dyadic, hence exactly representable) quotients `b/1024` and `b/1024²`. -/
def roundHalfEven (a b : Nat) : Nat :=
  if 2 * (a % b) < b then a / b
  else if b < 2 * (a % b) then a / b + 1
  else if a / b % 2 = 0 then a / b else a / b + 1

/-- Two-digit zero-padded rendering of a number below 100, the
fractional part of a `.2f` format. -/
def pad2 (m : Nat) : List Char := if m < 10 then '0' :: natToChars m else natToChars m

/-- Render `num/den` with exactly two decimals (correct rounding, ties
to even), modelling the Python expression `f"{num/den:.2f}"`. -/
def twoDecChars (num den : Nat) : List Char :=
  natToChars (roundHalfEven (num * 100) den / 100) ++
    '.' :: pad2 (roundHalfEven (num * 100) den % 100)

/-- Model of `format_size` from the source: bytes below 1024 are shown
as `{b}B`, below 1024² as `{b/1024:.2f}KB`, and otherwise as
`{b/(1024*1024):.2f}MB`. -/
def format_size (size_bytes : Nat) : List Char :=
  if size_bytes < 1024 then natToChars size_bytes ++ ['B']
  else if size_bytes < 1024 * 1024 then twoDecChars size_bytes 1024 ++ ['K', 'B']
  else twoDecChars size_bytes (1024 * 1024) ++ ['M', 'B']

/-! ### The copy engine `copy_files_with_replace` -/

/-- Model of `str(e)` for an OSError raised by `stat`/`copy2`
(permission or I/O error on a `faulty` entry). -/
def statErrMsg : List Char := "[Errno 13] Permission denied".data

/-- Model of `str(e)` for `shutil.SameFileError`, raised by
`shutil.copy2` when source and destination are the same file. -/
def sameFileMsg : List Char := "source and destination are the same file".data

/-- One printed console line of the copy engine, in structured form.
`renderLine` below produces the exact character string. -/
inductive Line where
  | blank
  | missing (src : FPath)
  | errored (src : FPath) (msg : List Char)
  | copied (nm : String) (origSize newSize : Nat) (destFolder : FPath)
  | summary (success error totalSrc totalDst : Nat)
  deriving DecidableEq, Repr

/-- The sign symbol of a size change: `+` for growth, `-` for shrinkage,
empty when unchanged. -/
def signChars (change : Int) : List Char :=
  if 0 < change then ['+'] else if change < 0 then ['-'] else []

/-- The bracketed signed delta `[±{format_size(abs(new-orig))}]`. -/
def bracketChars (newSize origSize : Nat) : List Char :=
  " [".data ++ signChars ((newSize : Int) - origSize) ++
    format_size (((newSize : Int) - origSize).natAbs) ++ "]".data

/-- Character-level rendering of each console line, mirroring the
f-strings of the source. -/
def renderLine : Line → List Char
  | Line.blank => []
  | Line.missing src => "❌ 源文件不存在: ".data ++ pathChars src
  | Line.errored src msg => "❌ 复制失败 ".data ++ pathChars src ++ ": ".data ++ msg
  | Line.copied nm orig new destF =>
      "✅ 成功复制: ".data ++ nm.data ++ " (".data ++ format_size orig ++
        " → ".data ++ format_size new ++ ")".data ++
        (if 0 < orig then bracketChars new orig else []) ++
        " -> ".data ++ pathChars destF
  | Line.summary s e ts td =>
      "📊 复制完成! 成功: ".data ++ natToChars s ++ ", 失败: ".data ++ natToChars e ++
        " | 总大小: ".data ++ format_size ts ++ " → ".data ++ format_size td ++
        (if td ≠ ts then bracketChars td ts else [])

/-- Mutable state of one `copy_files_with_replace` run: the filesystem,
the four counters of the source, and the lines printed so far. -/
structure CopyState where
  fs : FS
  success_count : Nat
  error_count : Nat
  total_source_size : Nat
  total_dest_size : Nat
  lines : List Line
  deriving DecidableEq, Repr

/-- Initial copy state over a filesystem. -/
def initState (fs : FS) : CopyState := ⟨fs, 0, 0, 0, 0, []⟩

/-- The tail of the per-file body after both `stat` calls succeeded:
`shutil.copy2` either raises `SameFileError` (source equals destination
path) or writes the destination and the success line is printed. -/
def copyWrite (destination_folder : FPath) (stA : CopyState) (source_file : FPath)
    (source_size orig_dest_size : Nat) : CopyState :=
  if source_file = destination_folder ++ [lastName source_file] then
    { stA with error_count := stA.error_count + 1,
               lines := stA.lines ++ [Line.errored source_file sameFileMsg] }
  else
    { stA with
        fs := stA.fs.put (destination_folder ++ [lastName source_file]) source_size,
        total_dest_size := stA.total_dest_size + source_size,
        success_count := stA.success_count + 1,
        lines := stA.lines ++
          [Line.copied (lastName source_file) orig_dest_size source_size destination_folder] }

/-- One iteration of the per-file loop of `copy_files_with_replace`:
missing sources and raised exceptions are recorded as failures, the
loop always continues. -/
def copyStep (destination_folder : FPath) (st : CopyState) (source_file : FPath) : CopyState :=
  match st.fs.look source_file with
  | none =>
      { st with error_count := st.error_count + 1,
                lines := st.lines ++ [Line.missing source_file] }
  | some FileState.faulty =>
      { st with error_count := st.error_count + 1,
                lines := st.lines ++ [Line.errored source_file statErrMsg] }
  | some (FileState.file source_size) =>
      match st.fs.look (destination_folder ++ [lastName source_file]) with
      | some FileState.faulty =>
          { st with total_source_size := st.total_source_size + source_size,
                    error_count := st.error_count + 1,
                    lines := st.lines ++ [Line.errored source_file statErrMsg] }
      | some (FileState.file s) =>
          copyWrite destination_folder
            { st with total_source_size := st.total_source_size + source_size }
            source_file source_size s
      | none =>
          copyWrite destination_folder
            { st with total_source_size := st.total_source_size + source_size }
            source_file source_size 0

/-- Model of `copy_files_with_replace`: fold the per-file loop over the
source list, then print the final summary (preceded by the blank line of
the leading `\n` in the f-string). -/
def copy_files_with_replace (source_files : List FPath) (destination_folder : FPath)
    (fs : FS) : CopyState :=
  let final := source_files.foldl (copyStep destination_folder) (initState fs)
  { final with lines := final.lines ++
      [Line.blank,
       Line.summary final.success_count final.error_count
         final.total_source_size final.total_dest_size] }

/-! ### The pair registry and the watchdog event handler -/

/-- One entry of the `file_pairs` table. -/
structure PairCfg where
  name : String
  source_files : List FPath
  target_folder : FPath
  deriving DecidableEq, Repr

/-- The literal `file_pairs` configuration table of the source. -/
def file_pairs : List (String × PairCfg) :=
  [("pair1",
    { name := "form-flow插件文件-Obsidian沙箱仓库",
      source_files :=
        [["C:", "Desktop", "code", "form-flow", "plugin", "manifest.json"],
         ["C:", "Desktop", "code", "form-flow", "plugin", "main.js"],
         ["C:", "Desktop", "code", "form-flow", "plugin", "styles.css"]],
      target_folder := ["C:", "Code", "Obsidian沙箱仓库", ".obsidian", "plugins", "form-flow"] }),
   ("pair2",
    { name := "Lmmersive主题",
      source_files :=
        [["C:", "Desktop", "code", "Lmmersive", "manifest.json"],
         ["C:", "Desktop", "code", "Lmmersive", "theme.css"]],
      target_folder := ["C:", "Code", "Obsidian沙箱仓库", ".obsidian", "themes", "Lmmersive"] }),
   ("pair3",
    { name := "git-auto插件文件",
      source_files :=
        [["C:", "Desktop", "code", "git-auto", "manifest.json"],
         ["C:", "Desktop", "code", "git-auto", "main.js"],
         ["C:", "Desktop", "code", "git-auto", "styles.css"]],
      target_folder := ["C:", "Code", "Obsidian沙箱仓库", ".obsidian", "plugins", "git-auto"] }),
   ("pair4",
    { name := "form-flow插件文件-笔记互传",
      source_files :=
        [["C:", "Desktop", "code", "obsidian-form-flow-master", "plugin", "manifest.json"],
         ["C:", "Desktop", "code", "obsidian-form-flow-master", "plugin", "main.js"],
         ["C:", "Desktop", "code", "obsidian-form-flow-master", "plugin", "styles.css"]],
      target_folder :=
        ["C:", "Desktop", "TakeAction", "B-Dailylife", "笔记互传", ".obsidian",
         "plugins", "form-flow"] }),
   ("pair5",
    { name := "form-flow插件文件-Obsidian沙箱仓库",
      source_files :=
        [["C:", "Desktop", "code", "obsidian-form-flow-master", "plugin", "manifest.json"],
         ["C:", "Desktop", "code", "obsidian-form-flow-master", "plugin", "main.js"],
         ["C:", "Desktop", "code", "obsidian-form-flow-master", "plugin", "styles.css"]],
      target_folder := ["C:", "Code", "Obsidian沙箱仓库", ".obsidian", "plugins", "form-flow"] })]

/-- In-memory state of `FileChangeHandler`: the registry, the watched
pair ids, and the per-pair last-trigger timestamps. Time is modelled by
rationals (an idealisation of the `time.time()` float). -/
structure HandlerState where
  file_pairs : List (String × PairCfg)
  watch_pairs : List String
  last_triggered : List (String × Rat)
  deriving DecidableEq

/-- Model of `FileChangeHandler.__init__`: every watched pair id starts
with last-trigger timestamp 0. -/
def initHandler (fp : List (String × PairCfg)) (wp : List String) : HandlerState :=
  ⟨fp, wp, wp.map (fun pid => (pid, (0 : Rat)))⟩

/-- Read a pair's last-trigger timestamp. -/
def qLook (m : List (String × Rat)) (pid : String) : Rat := (m.lookup pid).getD 0

/-- The loop over `watch_pairs` inside `on_modified`.  Returns the new
timestamp map and the ids whose copy was invoked, in invocation order.
A pair whose source list contains the event path either triggers a copy
(updating its timestamp, then the outer loop continues with the next
pair, since the `break` of the source only leaves the inner loop over
`source_files`) or, inside its 2-second debounce window, makes the whole
handler return immediately. -/
def onModifiedGo (registry : List (String × PairCfg)) (path : FPath) (now : Rat) :
    List String → List (String × Rat) → List (String × Rat) × List String
  | [], last => (last, [])
  | pid :: rest, last =>
    match registry.lookup pid with
    | none => onModifiedGo registry path now rest last
    | some pair =>
      if path ∈ pair.source_files then
        if now - qLook last pid < 2 then (last, [])
        else
          let res := onModifiedGo registry path now rest ((pid, now) :: last)
          (res.1, pid :: res.2)
      else onModifiedGo registry path now rest last

/-- Model of `FileChangeHandler.on_modified`: directory events are
ignored; otherwise the watch-pair loop runs.  The returned list holds
the pair ids for which `copy_files_with_replace` was invoked. -/
def on_modified (st : HandlerState) (isDirectory : Bool) (src_path : FPath) (now : Rat) :
    HandlerState × List String :=
  if isDirectory then (st, [])
  else
    let res := onModifiedGo st.file_pairs src_path now st.watch_pairs st.last_triggered
    ({ st with last_triggered := res.1 }, res.2)

/-! ### The command-line entry point -/

/-- Model of Python `str.split(',')` at character level. -/
def splitCommaGo : List Char → List Char → List String
  | [], acc => [String.mk acc.reverse]
  | c :: rest, acc =>
    if c = ',' then String.mk acc.reverse :: splitCommaGo rest []
    else splitCommaGo rest (c :: acc)

/-- Model of `args.pairs.split(',')`. -/
def splitComma (s : String) : List String := splitCommaGo s.data []

/-- Outcome of the `__main__` dispatch.  `invalidPairs` models printing
the invalid ids and `exit(1)` before any watch is started, any copy is
run, or any filesystem write is made; `watch` models
`start_auto_monitor` with the given pair ids; `watchInteractive` models
`select_watch_pairs` followed by the monitor; `manual` models the
interactive manual mode. -/
inductive ProgResult where
  | invalidPairs (invalid : List String)
  | watch (watch_pairs : List String)
  | watchInteractive
  | manual
  deriving DecidableEq, Repr

/-- Model of the `__main__` block's dispatch on `--auto` and `--pairs`.
`if args.pairs:` is a truthiness test: both an absent flag (`None`) and
an empty string are falsy and fall through to `select_watch_pairs`. -/
def mainDispatch (auto : Bool) (pairsArg : Option String)
    (registry : List (String × PairCfg)) : ProgResult :=
  if auto then
    match pairsArg with
    | some s =>
        if s = "" then ProgResult.watchInteractive
        else
          let watch_pairs := splitComma s
          let invalid := watch_pairs.filter (fun p => (registry.lookup p).isNone)
          if invalid.isEmpty then ProgResult.watch watch_pairs
          else ProgResult.invalidPairs invalid
    | none => ProgResult.watchInteractive
  else ProgResult.manual

/-- Exit code of the dispatch outcome: 1 for the invalid-pairs early
exit, 0 otherwise. -/
def exitCodeOf : ProgResult → Nat
  | ProgResult.invalidPairs _ => 1
  | _ => 0

/-! ### The manual all-pairs loop and its output re-parsing -/

/-- Substring `"成功: "` checked by `"成功: " in line`. -/
def markerSuc : List Char := "成功: ".data

/-- Substring `"失败: "` checked by `"失败: " in line`. -/
def markerErr : List Char := "失败: ".data

/-- Token `"成功:"` located by `parts.index("成功:")`. -/
def tokenSuc : List Char := "成功:".data

/-- Token `"失败:"` located by `parts.index("失败:")`. -/
def tokenErr : List Char := "失败:".data

/-- Model of Python's substring test `m in s`. -/
def infixOf (m : List Char) : List Char → Bool
  | [] => m.isEmpty
  | c :: rest => m.isPrefixOf (c :: rest) || infixOf m rest

/-- Model of Python `str.split()` (split on space runs, no empty parts);
the lines at hand never contain other whitespace. -/
def splitSpacesGo : List Char → List Char → List (List Char)
  | [], acc => if acc.isEmpty then [] else [acc.reverse]
  | c :: rest, acc =>
    if c = ' ' then
      if acc.isEmpty then splitSpacesGo rest []
      else acc.reverse :: splitSpacesGo rest []
    else splitSpacesGo rest (c :: acc)

/-- Split a line into whitespace-separated parts. -/
def splitSpaces (l : List Char) : List (List Char) := splitSpacesGo l []

/-- Model of `.replace(",", "")`. -/
def stripCommas (l : List Char) : List Char := l.filter (fun c => c ≠ ',')

/-- The condition `"成功: " in line and "失败: " in line`. -/
def markerCheck (l : List Char) : Bool := infixOf markerSuc l && infixOf markerErr l

/-- Parse the success/failure counts out of one matched line, as the
`parts.index`/`int(...)` code of the all-pairs loop does. -/
def parseLineCounts (l : List Char) : Nat × Nat :=
  let parts := splitSpaces l
  (charsToNat (stripCommas (parts.getD (parts.indexOf tokenSuc + 1) [])),
   charsToNat (stripCommas (parts.getD (parts.indexOf tokenErr + 1) [])))

/-- Scan the captured output lines for the first line containing both
markers and parse it; the loop contributes nothing when no line
matches. -/
def findCounts (lines : List (List Char)) : Nat × Nat :=
  match lines.find? markerCheck with
  | some l => parseLineCounts l
  | none => (0, 0)

/-- Model of the manual-mode "copy all pairs" loop: each pair's copy
output is captured, re-parsed for its summary counts, and the parsed
counts are accumulated into the printed grand total. -/
def copyAllPairs (registry : List (String × PairCfg)) (fs0 : FS) : FS × Nat × Nat :=
  registry.foldl
    (fun acc p =>
      let r := copy_files_with_replace p.2.source_files p.2.target_folder acc.1
      let parsed := findCounts (r.lines.map renderLine)
      (r.fs, acc.2.1 + parsed.1, acc.2.2 + parsed.2))
    (fs0, 0, 0)

/-- The same loop accumulating the structural per-pair counters of the
copy engine directly, without any text round-trip. -/
def copyAllPairsDirect (registry : List (String × PairCfg)) (fs0 : FS) : FS × Nat × Nat :=
  registry.foldl
    (fun acc p =>
      let r := copy_files_with_replace p.2.source_files p.2.target_folder acc.1
      (r.fs, acc.2.1 + r.success_count, acc.2.2 + r.error_count))
    (fs0, 0, 0)

/-- Decidable cleanliness of one source path: its per-file failure lines
never contain both summary markers, and its name is free of the marker
head character.  Every path of the registry satisfies this. -/
def cleanSrc (src : FPath) : Bool :=
  decide ('失' ∉ (lastName src).data) &&
  !(infixOf markerErr (renderLine (Line.missing src))) &&
  !(markerCheck (renderLine (Line.errored src statErrMsg))) &&
  !(markerCheck (renderLine (Line.errored src sameFileMsg)))

/-- Decidable cleanliness of a pair: all its sources are clean and its
target-folder rendering is free of the marker head character. -/
def cleanPair (P : PairCfg) : Bool :=
  P.source_files.all cleanSrc && decide ('失' ∉ pathChars P.target_folder)

/-- A two-pair registry whose pairs share one watched source file, used
to exercise the watch-pair loop on overlapping source lists. -/
def twoPairRegistry : List (String × PairCfg) :=
  [("a", { name := "A", source_files := [["f"]], target_folder := ["ta"] }),
   ("b", { name := "B", source_files := [["f"]], target_folder := ["tb"] })]

/-- Handler state watching both pairs of `twoPairRegistry`, with both
debounce timestamps at 0. -/
def twoPairHandler : HandlerState :=
  ⟨twoPairRegistry, ["a", "b"], [("a", 0), ("b", 0)]⟩

/-! ## Theorems -/

theorem FS.look_put (fs : FS) (p : FPath) (sz : Nat) :
    (fs.put p sz).look p = some (FileState.file sz) := by
  simp [FS.put, FS.look, List.lookup]

theorem FS.look_put_ne (fs : FS) (p q : FPath) (sz : Nat) (h : q ≠ p) :
    (fs.put p sz).look q = fs.look q := by
  have hb : (q == p) = false := beq_eq_false_iff_ne.mpr h
  simp [FS.put, FS.look, List.lookup, hb]

theorem natToCharsCore_succ (fuel n : Nat) (acc : List Char) :
    natToCharsCore (fuel + 1) n acc =
      if n < 10 then Nat.digitChar n :: acc
      else natToCharsCore fuel (n / 10) (Nat.digitChar (n % 10) :: acc) := rfl

theorem natToCharsCore_emission (fuel : Nat) :
    ∀ n acc, natToCharsCore fuel n acc = natToCharsCore fuel n [] ++ acc := by
  induction fuel with
  | zero => intro n acc; simp [natToCharsCore]
  | succ fuel ih =>
    intro n acc
    by_cases h : n < 10
    · simp [natToCharsCore, h]
    · simp only [natToCharsCore, h, if_false]
      rw [ih (n / 10) (Nat.digitChar (n % 10) :: acc),
          ih (n / 10) [Nat.digitChar (n % 10)]]
      simp

theorem natToCharsCore_congr (f₁ : Nat) :
    ∀ f₂ n acc, n < f₁ → n < f₂ →
      natToCharsCore f₁ n acc = natToCharsCore f₂ n acc := by
  induction f₁ with
  | zero => intro f₂ n acc h; omega
  | succ f₁ ih =>
    intro f₂ n acc h₁ h₂
    match f₂, h₂ with
    | f₂ + 1, h₂ =>
      by_cases h : n < 10
      · simp [natToCharsCore, h]
      · simp only [natToCharsCore, h, if_false]
        have hn : 0 < n := by omega
        have hd : n / 10 < n := Nat.div_lt_self hn (by norm_num)
        exact ih f₂ (n / 10) _ (by omega) (by omega)

theorem natToChars_lt_ten {n : Nat} (h : n < 10) :
    natToChars n = [Nat.digitChar n] := by
  simp [natToChars, natToCharsCore, h]

theorem natToChars_ge_ten {n : Nat} (h : 10 ≤ n) :
    natToChars n = natToChars (n / 10) ++ [Nat.digitChar (n % 10)] := by
  have h' : ¬ n < 10 := by omega
  have hn : 0 < n := by omega
  have hd : n / 10 < n := Nat.div_lt_self hn (by norm_num)
  rw [natToChars, natToCharsCore_succ, if_neg h', natToCharsCore_emission,
    natToCharsCore_congr n (n / 10 + 1) (n / 10) [] (by omega) (by omega)]
  rfl

theorem digitChar_isDigit {d : Nat} (h : d < 10) : (Nat.digitChar d).isDigit = true := by
  interval_cases d <;> decide

theorem charVal_digitChar {d : Nat} (h : d < 10) : charVal (Nat.digitChar d) = d := by
  interval_cases d <;> decide

theorem natToChars_digits (n : Nat) : ∀ c ∈ natToChars n, c.isDigit = true := by
  induction n using Nat.strong_induction_on with
  | _ n ih =>
    by_cases h : n < 10
    · rw [natToChars_lt_ten h]
      intro c hc
      simp at hc
      subst hc
      exact digitChar_isDigit h
    · rw [natToChars_ge_ten (by omega)]
      intro c hc
      rcases List.mem_append.mp hc with h' | h'
      · exact ih (n / 10) (Nat.div_lt_self (by omega) (by norm_num)) c h'
      · simp at h'
        subst h'
        exact digitChar_isDigit (Nat.mod_lt _ (by norm_num))

theorem natToChars_ne_nil (n : Nat) : natToChars n ≠ [] := by
  by_cases h : n < 10
  · rw [natToChars_lt_ten h]; simp
  · rw [natToChars_ge_ten (by omega)]; simp

theorem charsToNat_gen (n : Nat) :
    ∀ a, List.foldl (fun a c => a * 10 + charVal c) a (natToChars n) =
      a * 10 ^ (natToChars n).length + n := by
  induction n using Nat.strong_induction_on with
  | _ n ih =>
    intro a
    by_cases h : n < 10
    · rw [natToChars_lt_ten h]
      simp [charVal_digitChar h]
    · rw [natToChars_ge_ten (by omega)]
      rw [List.foldl_append]
      have hlt : n / 10 < n := Nat.div_lt_self (by omega) (by norm_num)
      rw [ih (n / 10) hlt a]
      simp only [List.foldl, List.length_append, List.length_cons, List.length_nil]
      rw [charVal_digitChar (Nat.mod_lt _ (by norm_num))]
      have : a * 10 ^ ((natToChars (n / 10)).length + (0 + 1)) =
          a * 10 ^ (natToChars (n / 10)).length * 10 := by ring
      rw [this]
      have hmod : n / 10 * 10 + n % 10 = n := by omega
      ring_nf
      omega

theorem charsToNat_natToChars (n : Nat) : charsToNat (natToChars n) = n := by
  unfold charsToNat
  rw [charsToNat_gen n 0]
  simp

theorem roundHalfEven_correct (a b : Nat) (hb : 0 < b) :
    2 * (((roundHalfEven a b : Int) * b - a).natAbs) ≤ b := by
  unfold roundHalfEven
  have hq : b * (a / b) + a % b = a := Nat.div_add_mod a b
  have hr : a % b < b := Nat.mod_lt _ hb
  generalize hqd : a / b = q at *
  generalize hrd : a % b = r at *
  have hcast : (a : Int) = (b : Int) * q + r := by exact_mod_cast hq.symm
  have e1 : ((q : Nat) : Int) * b - a = -((r : Nat) : Int) := by rw [hcast]; ring
  have e2 : ((q + 1 : Nat) : Int) * b - a = (b : Int) - ((r : Nat) : Int) := by
    push_cast
    rw [hcast]; ring
  by_cases h₁ : 2 * r < b
  · simp only [h₁, if_true]
    rw [e1]
    omega
  · simp only [h₁, if_false]
    by_cases h₂ : b < 2 * r
    · simp only [h₂, if_true]
      rw [e2]
      omega
    · simp only [h₂, if_false]
      by_cases h₃ : q % 2 = 0
      · simp only [h₃, if_true]
        rw [e1]
        omega
      · simp only [h₃, if_false]
        rw [e2]
        omega

theorem pad2_length {m : Nat} (h : m < 100) : (pad2 m).length = 2 := by
  unfold pad2
  by_cases h' : m < 10
  · rw [if_pos h', natToChars_lt_ten h']
    rfl
  · rw [if_neg h', natToChars_ge_ten (by omega)]
    have h10 : m / 10 < 10 := by omega
    rw [natToChars_lt_ten h10]
    rfl

theorem pad2_digits {m : Nat} : ∀ c ∈ pad2 m, c.isDigit = true := by
  unfold pad2
  by_cases h' : m < 10 <;> simp only [h', if_true, if_false]
  · intro c hc
    rcases List.mem_cons.mp hc with h | h
    · subst h; decide
    · exact natToChars_digits m c h
  · exact natToChars_digits m

theorem charsToNat_pad2 {m : Nat} (h : m < 100) : charsToNat (pad2 m) = m := by
  unfold pad2
  by_cases h' : m < 10
  · rw [if_pos h']
    unfold charsToNat
    rw [List.foldl_cons]
    have h0 : (0 : Nat) * 10 + charVal '0' = 0 := by decide
    rw [h0]
    simpa using charsToNat_gen m 0
  · rw [if_neg h']
    exact charsToNat_natToChars m

theorem twoDecChars_chars (num den : Nat) :
    ∀ c ∈ twoDecChars num den, c.isDigit = true ∨ c = '.' := by
  intro c hc
  unfold twoDecChars at hc
  rcases List.mem_append.mp hc with h | h
  · exact Or.inl (natToChars_digits _ c h)
  · rcases List.mem_cons.mp h with h' | h'
    · exact Or.inr h'
    · exact Or.inl (pad2_digits c h')

theorem format_size_chars (b : Nat) :
    ∀ c ∈ format_size b, c.isDigit = true ∨ c ∈ ['.', 'B', 'K', 'M'] := by
  intro c hc
  unfold format_size at hc
  split at hc
  · rcases List.mem_append.mp hc with h | h
    · exact Or.inl (natToChars_digits _ c h)
    · right; simp only [List.mem_singleton] at h; simp [h]
  · split at hc <;>
    · rcases List.mem_append.mp hc with h | h
      · rcases twoDecChars_chars _ _ c h with h' | h'
        · exact Or.inl h'
        · right; simp [h']
      · right; simp at h
        rcases h with h | h <;> simp [h]

/-- C2: for every non-negative byte count `b`, `format_size` returns the
string `{b}B` when `b < 1024`; when `1024 ≤ b < 1024²` it returns the value
`b/1024` rendered with exactly two decimals followed by `KB`; otherwise
`b/1024²` rendered with exactly two decimals followed by `MB`.  The
rendered value is the correctly rounded (ties to even) two-decimal
approximation of the exact quotient. -/
theorem format_size_spec (b : Nat) :
    (b < 1024 → format_size b = natToChars b ++ ['B']) ∧
    (1024 ≤ b → b < 1024 * 1024 →
      ∃ ip frac : List Char,
        format_size b = ip ++ '.' :: frac ++ ['K', 'B'] ∧
        frac.length = 2 ∧ (∀ c ∈ frac, c.isDigit = true) ∧
        charsToNat ip * 100 + charsToNat frac = roundHalfEven (b * 100) 1024 ∧
        2 * (((roundHalfEven (b * 100) 1024 : Int) * 1024 -
          ((b * 100 : Nat) : Int)).natAbs) ≤ 1024) ∧
    (1024 * 1024 ≤ b →
      ∃ ip frac : List Char,
        format_size b = ip ++ '.' :: frac ++ ['M', 'B'] ∧
        frac.length = 2 ∧ (∀ c ∈ frac, c.isDigit = true) ∧
        charsToNat ip * 100 + charsToNat frac = roundHalfEven (b * 100) (1024 * 1024) ∧
        2 * (((roundHalfEven (b * 100) (1024 * 1024) : Int) * (1024 * 1024) -
          ((b * 100 : Nat) : Int)).natAbs) ≤ 1024 * 1024) := by
  refine ⟨fun h => ?_, fun h₁ h₂ => ?_, fun h => ?_⟩
  · simp [format_size, h]
  · refine ⟨natToChars (roundHalfEven (b * 100) 1024 / 100),
      pad2 (roundHalfEven (b * 100) 1024 % 100), ?_, ?_, ?_, ?_, ?_⟩
    · simp [format_size, twoDecChars, h₂, show ¬ b < 1024 by omega]
    · exact pad2_length (Nat.mod_lt _ (by norm_num))
    · exact pad2_digits
    · rw [charsToNat_natToChars, charsToNat_pad2 (Nat.mod_lt _ (by norm_num))]
      omega
    · exact roundHalfEven_correct (b * 100) 1024 (by norm_num)
  · refine ⟨natToChars (roundHalfEven (b * 100) (1024 * 1024) / 100),
      pad2 (roundHalfEven (b * 100) (1024 * 1024) % 100), ?_, ?_, ?_, ?_, ?_⟩
    · simp [format_size, twoDecChars, show ¬ b < 1024 by omega,
        show ¬ b < 1024 * 1024 by omega]
    · exact pad2_length (Nat.mod_lt _ (by norm_num))
    · exact pad2_digits
    · rw [charsToNat_natToChars, charsToNat_pad2 (Nat.mod_lt _ (by norm_num))]
      omega
    · exact roundHalfEven_correct (b * 100) (1024 * 1024) (by norm_num)

/-- Witness for `format_size_spec` at the concrete byte count 1536. -/
theorem format_size_spec_witness :
    (1024 ≤ 1536 ∧ 1536 < 1024 * 1024) ∧
    ∃ ip frac : List Char,
      format_size 1536 = ip ++ '.' :: frac ++ ['K', 'B'] ∧
      frac.length = 2 ∧ (∀ c ∈ frac, c.isDigit = true) ∧
      charsToNat ip * 100 + charsToNat frac = roundHalfEven (1536 * 100) 1024 ∧
      2 * (((roundHalfEven (1536 * 100) 1024 : Int) * 1024 -
        ((1536 * 100 : Nat) : Int)).natAbs) ≤ 1024 :=
  ⟨⟨by decide, by decide⟩, (format_size_spec 1536).2.1 (by decide) (by decide)⟩

/-! ### Per-step behaviour of the copy engine -/

theorem copyStep_counts (d : FPath) (st : CopyState) (f : FPath) :
    (copyStep d st f).success_count + (copyStep d st f).error_count =
      st.success_count + st.error_count + 1 := by
  unfold copyStep copyWrite
  repeat' split
  all_goals simp
  all_goals omega
theorem copyStep_lines (d : FPath) (st : CopyState) (f : FPath) :
    ∃ ℓ : Line, (copyStep d st f).lines = st.lines ++ [ℓ] := by
  unfold copyStep copyWrite
  repeat' split
  all_goals exact ⟨_, rfl⟩
theorem copyStep_fail (d : FPath) (st : CopyState) (f : FPath)
    (h : st.fs.look f = none ∨ st.fs.look f = some FileState.faulty ∨
         f = d ++ [lastName f] ∨ st.fs.look (d ++ [lastName f]) = some FileState.faulty) :
    (copyStep d st f).success_count = st.success_count ∧
    (copyStep d st f).error_count = st.error_count + 1 ∧
    (copyStep d st f).fs = st.fs := by
  unfold copyStep copyWrite
  repeat' split
  all_goals
    first
      | exact ⟨rfl, rfl, rfl⟩
      | (rename_i hcond
         exfalso
         rcases h with h | h | h | h
         · simp_all
         · simp_all
         · exact hcond h
         · simp_all)
theorem copyStep_success (d : FPath) (st : CopyState) (f : FPath) (s : Nat)
    (hsrc : st.fs.look f = some (FileState.file s))
    (hne : f ≠ d ++ [lastName f])
    (hdst : st.fs.look (d ++ [lastName f]) ≠ some FileState.faulty) :
    (copyStep d st f).success_count = st.success_count + 1 ∧
    (copyStep d st f).error_count = st.error_count ∧
    (copyStep d st f).fs = st.fs.put (d ++ [lastName f]) s := by
  unfold copyStep copyWrite
  repeat' split
  all_goals
    first
      | (rename_i hcond
         exact absurd hcond hne)
      | simp_all [FS.put]
theorem copyStep_fs_cases (d : FPath) (st : CopyState) (f : FPath) :
    (copyStep d st f).fs = st.fs ∨
    ∃ s, (copyStep d st f).fs = st.fs.put (d ++ [lastName f]) s := by
  unfold copyStep copyWrite
  repeat' split
  all_goals first
    | (left; rfl)
    | (right; exact ⟨_, rfl⟩)
theorem look_put_cases (fs : FS) (p q : FPath) (sz : Nat) :
    (fs.put p sz).look q = some (FileState.file sz) ∨ (fs.put p sz).look q = fs.look q := by
  by_cases h : q = p
  · subst h; exact Or.inl (FS.look_put fs q sz)
  · exact Or.inr (FS.look_put_ne fs p q sz h)

theorem copyStep_preserves_file (d : FPath) (st : CopyState) (f k : FPath)
    (h : ∃ s, st.fs.look k = some (FileState.file s)) :
    ∃ s', (copyStep d st f).fs.look k = some (FileState.file s') := by
  rcases copyStep_fs_cases d st f with hfs | ⟨s, hfs⟩
  · rw [hfs]; exact h
  · rw [hfs]
    rcases look_put_cases st.fs (d ++ [lastName f]) k s with h' | h'
    · exact ⟨s, h'⟩
    · rw [h']; exact h

theorem copyStep_changes (d : FPath) (st : CopyState) (f k : FPath)
    (h : (copyStep d st f).fs.look k ≠ st.fs.look k) :
    (∃ n, k = d ++ [n]) ∧ ∃ s, (copyStep d st f).fs.look k = some (FileState.file s) := by
  rcases copyStep_fs_cases d st f with hfs | ⟨s, hfs⟩
  · rw [hfs] at h; exact absurd rfl h
  · rw [hfs] at h ⊢
    by_cases hk : k = d ++ [lastName f]
    · subst hk
      exact ⟨⟨lastName f, rfl⟩, s, FS.look_put st.fs _ s⟩
    · rw [FS.look_put_ne st.fs _ k s hk] at h
      exact absurd rfl h

theorem copyStep_notfaulty (d : FPath) (st : CopyState) (f k : FPath)
    (h : st.fs.look k ≠ some FileState.faulty) :
    (copyStep d st f).fs.look k ≠ some FileState.faulty := by
  intro hcon
  by_cases hch : (copyStep d st f).fs.look k = st.fs.look k
  · rw [hch] at hcon; exact h hcon
  · rcases copyStep_changes d st f k hch with ⟨_, s, hs⟩
    rw [hs] at hcon; cases hcon

/-! ### Whole-run lemmas for the copy engine -/

theorem copyRun_counts (d : FPath) (L : List FPath) :
    ∀ st : CopyState,
      (L.foldl (copyStep d) st).success_count + (L.foldl (copyStep d) st).error_count =
        st.success_count + st.error_count + L.length := by
  induction L with
  | nil => intro st; simp
  | cons f L ih =>
    intro st
    rw [List.foldl_cons, ih]
    have := copyStep_counts d st f
    simp only [List.length_cons]
    omega

theorem copyRun_preserves_file (d : FPath) (L : List FPath) :
    ∀ (st : CopyState) (k : FPath), (∃ s, st.fs.look k = some (FileState.file s)) →
      ∃ s', ((L.foldl (copyStep d) st).fs.look k = some (FileState.file s')) := by
  induction L with
  | nil => intro st k h; simpa using h
  | cons f L ih =>
    intro st k h
    exact ih (copyStep d st f) k (copyStep_preserves_file d st f k h)

theorem copyRun_notfaulty (d : FPath) (L : List FPath) :
    ∀ (st : CopyState) (k : FPath), st.fs.look k ≠ some FileState.faulty →
      (L.foldl (copyStep d) st).fs.look k ≠ some FileState.faulty := by
  induction L with
  | nil => intro st k h; simpa using h
  | cons f L ih =>
    intro st k h
    exact ih (copyStep d st f) k (copyStep_notfaulty d st f k h)

theorem copyRun_changes (d : FPath) (L : List FPath) :
    ∀ (st : CopyState) (k : FPath), (L.foldl (copyStep d) st).fs.look k ≠ st.fs.look k →
      (∃ n, k = d ++ [n]) ∧
        ∃ s, (L.foldl (copyStep d) st).fs.look k = some (FileState.file s) := by
  induction L with
  | nil => intro st k h; exact absurd rfl h
  | cons f L ih =>
    intro st k h
    rw [List.foldl_cons] at h ⊢
    by_cases h₁ : (L.foldl (copyStep d) (copyStep d st f)).fs.look k =
        (copyStep d st f).fs.look k
    · rw [h₁] at h
      rcases copyStep_changes d st f k h with ⟨hn, s, hs⟩
      refine ⟨hn, ?_⟩
      rw [h₁]
      exact ⟨s, hs⟩
    · exact ih (copyStep d st f) k h₁

theorem copyRun_good (d : FPath) (L : List FPath) :
    ∀ st : CopyState,
      (∀ f ∈ L, (∃ s, st.fs.look f = some (FileState.file s)) ∧ f ≠ d ++ [lastName f] ∧
        st.fs.look (d ++ [lastName f]) ≠ some FileState.faulty) →
      (L.foldl (copyStep d) st).success_count = st.success_count + L.length ∧
      (L.foldl (copyStep d) st).error_count = st.error_count ∧
      (∀ f ∈ L, ∃ s,
        (L.foldl (copyStep d) st).fs.look (d ++ [lastName f]) = some (FileState.file s)) := by
  induction L with
  | nil => intro st h; simp
  | cons f L ih =>
    intro st h
    obtain ⟨⟨s, hsrc⟩, hne, hdst⟩ := h f (List.mem_cons_self f L)
    obtain ⟨hsc, hec, hfs⟩ := copyStep_success d st f s hsrc hne hdst
    have htail : ∀ g ∈ L, (∃ s, (copyStep d st f).fs.look g = some (FileState.file s)) ∧
        g ≠ d ++ [lastName g] ∧
        (copyStep d st f).fs.look (d ++ [lastName g]) ≠ some FileState.faulty := by
      intro g hg
      obtain ⟨hg1, hg2, hg3⟩ := h g (List.mem_cons_of_mem f hg)
      exact ⟨copyStep_preserves_file d st f g hg1, hg2, copyStep_notfaulty d st f _ hg3⟩
    obtain ⟨ihs, ihe, ihf⟩ := ih (copyStep d st f) htail
    rw [List.foldl_cons]
    refine ⟨by rw [ihs, hsc]; simp [Nat.add_assoc, Nat.add_comm 1], by rw [ihe, hec], ?_⟩
    intro g hg
    rcases List.mem_cons.mp hg with hg' | hg'
    · subst hg'
      apply copyRun_preserves_file
      rw [hfs]
      exact ⟨s, FS.look_put st.fs _ s⟩
    · exact ihf g hg'

/-! ### C6: the engine is total and always reaches its summary -/

theorem exit_one_only_invalidPairs (auto : Bool) (pairsArg : Option String)
    (registry : List (String × PairCfg))
    (h : exitCodeOf (mainDispatch auto pairsArg registry) = 1) :
    ∃ invalid, mainDispatch auto pairsArg registry = ProgResult.invalidPairs invalid ∧
      invalid ≠ [] ∧ ∀ pid ∈ invalid, registry.lookup pid = none := by
  unfold mainDispatch at h ⊢
  cases auto with
  | false => simp [exitCodeOf] at h
  | true =>
    cases pairsArg with
    | none => simp [exitCodeOf] at h
    | some s =>
      simp only [if_true] at h ⊢
      by_cases hs : s = ""
      · rw [if_pos hs] at h
        simp [exitCodeOf] at h
      · rw [if_neg hs] at h ⊢
        by_cases he : ((splitComma s).filter (fun p => (registry.lookup p).isNone)).isEmpty
        · rw [if_pos he] at h
          simp [exitCodeOf] at h
        · rw [if_neg he] at h ⊢
          refine ⟨_, rfl, ?_, ?_⟩
          · intro hnil
            rw [hnil] at he
            simp at he
          · intro pid hpid
            have := List.of_mem_filter hpid
            exact Option.isNone_iff_eq_none.mp this

/-- C6: the copy engine never lets a single-file failure escape its
per-file processing: for every filesystem (including missing and faulty
entries) and every source list, the run is a total function whose
success and failure counts account for every file, and whose output
always ends with the final summary line.  Early process termination can
come only from the invalid `--pairs` dispatch (exit code 1 implies the
invalid-pairs outcome, which performs no watch and no copy). -/
theorem copy_total_spec (source_files : List FPath) (destination_folder : FPath) (fs : FS) :
    (copy_files_with_replace source_files destination_folder fs).success_count +
      (copy_files_with_replace source_files destination_folder fs).error_count =
        source_files.length ∧
    (copy_files_with_replace source_files destination_folder fs).lines.getLast? =
      some (Line.summary
        (copy_files_with_replace source_files destination_folder fs).success_count
        (copy_files_with_replace source_files destination_folder fs).error_count
        (copy_files_with_replace source_files destination_folder fs).total_source_size
        (copy_files_with_replace source_files destination_folder fs).total_dest_size) ∧
    (∀ (auto : Bool) (pairsArg : Option String) (registry : List (String × PairCfg)),
      exitCodeOf (mainDispatch auto pairsArg registry) = 1 →
        ∃ invalid, mainDispatch auto pairsArg registry = ProgResult.invalidPairs invalid ∧
          invalid ≠ [] ∧ ∀ pid ∈ invalid, registry.lookup pid = none) := by
  refine ⟨?_, ?_, fun auto pairsArg registry h =>
    exit_one_only_invalidPairs auto pairsArg registry h⟩
  · have h := copyRun_counts destination_folder source_files (initState fs)
    simpa [copy_files_with_replace, initState] using h
  · show ((source_files.foldl (copyStep destination_folder) (initState fs)).lines ++
      [Line.blank, Line.summary
        (copy_files_with_replace source_files destination_folder fs).success_count
        (copy_files_with_replace source_files destination_folder fs).error_count
        (copy_files_with_replace source_files destination_folder fs).total_source_size
        (copy_files_with_replace source_files destination_folder fs).total_dest_size]).getLast? =
      some (Line.summary
        (copy_files_with_replace source_files destination_folder fs).success_count
        (copy_files_with_replace source_files destination_folder fs).error_count
        (copy_files_with_replace source_files destination_folder fs).total_source_size
        (copy_files_with_replace source_files destination_folder fs).total_dest_size)
    rw [show ((source_files.foldl (copyStep destination_folder) (initState fs)).lines ++
      [Line.blank, Line.summary
        (copy_files_with_replace source_files destination_folder fs).success_count
        (copy_files_with_replace source_files destination_folder fs).error_count
        (copy_files_with_replace source_files destination_folder fs).total_source_size
        (copy_files_with_replace source_files destination_folder fs).total_dest_size]) =
      (((source_files.foldl (copyStep destination_folder) (initState fs)).lines ++
        [Line.blank]) ++
      [Line.summary
        (copy_files_with_replace source_files destination_folder fs).success_count
        (copy_files_with_replace source_files destination_folder fs).error_count
        (copy_files_with_replace source_files destination_folder fs).total_source_size
        (copy_files_with_replace source_files destination_folder fs).total_dest_size]) from by simp]
    exact List.getLast?_concat _

/-- Witness for `copy_total_spec` on a concrete two-file batch with one
missing and one faulty entry. -/
theorem copy_total_spec_witness :
    (copy_files_with_replace [["s", "a"], ["s", "b"]] ["d"]
      [(["s", "a"], FileState.faulty)]).success_count +
    (copy_files_with_replace [["s", "a"], ["s", "b"]] ["d"]
      [(["s", "a"], FileState.faulty)]).error_count = 2 :=
  (copy_total_spec [["s", "a"], ["s", "b"]] ["d"] [(["s", "a"], FileState.faulty)]).1

/-! ### C1: one missing file among otherwise valid files -/

theorem copyRun_one_missing (d : FPath) (pre post : List FPath) (bad : FPath) (fs : FS)
    (hbad : fs.look bad = none)
    (hgood : ∀ f ∈ pre ++ post, (∃ s, fs.look f = some (FileState.file s)) ∧
      f ≠ d ++ [lastName f] ∧ fs.look (d ++ [lastName f]) ≠ some FileState.faulty) :
    ((pre ++ bad :: post).foldl (copyStep d) (initState fs)).success_count =
      (pre ++ post).length ∧
    ((pre ++ bad :: post).foldl (copyStep d) (initState fs)).error_count = 1 ∧
    ∀ f ∈ pre ++ post, ∃ s,
      ((pre ++ bad :: post).foldl (copyStep d) (initState fs)).fs.look (d ++ [lastName f]) =
        some (FileState.file s) := by
  rw [List.foldl_append, List.foldl_cons]
  obtain ⟨hPs, hPe, hPd⟩ := copyRun_good d pre (initState fs)
    (fun f hf => hgood f (List.mem_append.mpr (Or.inl hf)))
  have hpres : ∀ k, (∃ s, fs.look k = some (FileState.file s)) →
      ∃ s', (pre.foldl (copyStep d) (initState fs)).fs.look k = some (FileState.file s') :=
    fun k h => copyRun_preserves_file d pre (initState fs) k h
  have hnf : ∀ k, fs.look k ≠ some FileState.faulty →
      (pre.foldl (copyStep d) (initState fs)).fs.look k ≠ some FileState.faulty :=
    fun k h => copyRun_notfaulty d pre (initState fs) k h
  have hbadcase : (pre.foldl (copyStep d) (initState fs)).fs.look bad = none ∨
      bad = d ++ [lastName bad] := by
    by_cases hb : (pre.foldl (copyStep d) (initState fs)).fs.look bad = none
    · exact Or.inl hb
    · right
      have hch : (pre.foldl (copyStep d) (initState fs)).fs.look bad ≠
          (initState fs).fs.look bad := by
        intro hcon
        apply hb
        rw [hcon]
        exact hbad
      obtain ⟨⟨n, hn⟩, _⟩ := copyRun_changes d pre (initState fs) bad hch
      have hln : lastName (d ++ [n]) = n := by simp [lastName]
      rw [hn, hln]
  obtain ⟨hBs, hBe, hBfs⟩ := copyStep_fail d (pre.foldl (copyStep d) (initState fs)) bad
    (by rcases hbadcase with h | h
        · exact Or.inl h
        · exact Or.inr (Or.inr (Or.inl h)))
  obtain ⟨hFs, hFe, hFd⟩ :=
    copyRun_good d post (copyStep d (pre.foldl (copyStep d) (initState fs)) bad)
      (by intro f hf
          obtain ⟨hp, hne, hnff⟩ := hgood f (List.mem_append.mpr (Or.inr hf))
          refine ⟨?_, hne, ?_⟩
          · rw [hBfs]; exact hpres f hp
          · rw [hBfs]; exact hnf _ hnff)
  refine ⟨?_, ?_, ?_⟩
  · rw [hFs, hBs, hPs]
    simp [initState]
  · rw [hFe, hBe, hPe]
    simp [initState]
  · intro f hf
    rcases List.mem_append.mp hf with hf' | hf'
    · apply copyRun_preserves_file
      rw [hBfs]
      exact hPd f hf'
    · exact hFd f hf'

/-- C1 (amended): a batch holding exactly one non-existent path among
otherwise valid paths — files that exist, are statable and copyable,
none of which coincides with its own destination path or meets an
unstatable pre-existing destination — reports success = N-1 and
failure = 1, and every valid file is present at its destination
afterwards.  (The extra conditions are forced by
`copy_selfdest_counterexample`: `shutil.copy2` raises `SameFileError`
on a source equal to its destination, so an existing source inside the
destination folder is counted as a failure, not a success.) -/
theorem copy_one_missing_spec (pre post : List FPath) (bad d : FPath) (fs : FS)
    (hbad : fs.look bad = none)
    (hgood : ∀ f ∈ pre ++ post, (∃ s, fs.look f = some (FileState.file s)) ∧
      f ≠ d ++ [lastName f] ∧ fs.look (d ++ [lastName f]) ≠ some FileState.faulty) :
    (copy_files_with_replace (pre ++ bad :: post) d fs).success_count =
      (pre ++ bad :: post).length - 1 ∧
    (copy_files_with_replace (pre ++ bad :: post) d fs).error_count = 1 ∧
    ∀ f ∈ pre ++ post, ∃ s,
      (copy_files_with_replace (pre ++ bad :: post) d fs).fs.look (d ++ [lastName f]) =
        some (FileState.file s) := by
  obtain ⟨h1, h2, h3⟩ := copyRun_one_missing d pre post bad fs hbad hgood
  refine ⟨?_, h2, h3⟩
  show ((pre ++ bad :: post).foldl (copyStep d) (initState fs)).success_count = _
  rw [h1]
  simp

/-- Witness for `copy_one_missing_spec` on a three-file batch whose
middle path does not exist. -/
theorem copy_one_missing_spec_witness :
    (copy_files_with_replace [["s", "a"], ["x"], ["s", "b"]] ["d"]
      [(["s", "a"], FileState.file 5), (["s", "b"], FileState.file 3)]).success_count =
      [["s", "a"], ["x"], ["s", "b"]].length - 1 ∧
    (copy_files_with_replace [["s", "a"], ["x"], ["s", "b"]] ["d"]
      [(["s", "a"], FileState.file 5), (["s", "b"], FileState.file 3)]).error_count = 1 := by
  have h := copy_one_missing_spec [["s", "a"]] [["s", "b"]] ["x"] ["d"]
    [(["s", "a"], FileState.file 5), (["s", "b"], FileState.file 3)]
    (by decide)
    (by intro f hf
        simp only [List.cons_append, List.nil_append, List.mem_cons,
          List.not_mem_nil, or_false] at hf
        rcases hf with rfl | rfl
        · exact ⟨⟨5, rfl⟩, by decide, by decide⟩
        · exact ⟨⟨3, rfl⟩, by decide, by decide⟩)
  exact ⟨h.1, h.2.1⟩

/-- C1 counterexample: with one existing source that already lies at its
own destination path plus one non-existent path, the code reports 0
successes and 2 failures (`shutil.copy2` raises `SameFileError`), not
the claimed success = N-1 = 1, failure = 1. -/
theorem copy_selfdest_counterexample :
    FS.exi [(["d", "a"], FileState.file 5)] ["d", "a"] = true ∧
    FS.look [(["d", "a"], FileState.file 5)] ["x"] = none ∧
    (copy_files_with_replace [["d", "a"], ["x"]] ["d"]
      [(["d", "a"], FileState.file 5)]).success_count = 0 ∧
    (copy_files_with_replace [["d", "a"], ["x"]] ["d"]
      [(["d", "a"], FileState.file 5)]).error_count = 2 ∧
    ¬ ((copy_files_with_replace [["d", "a"], ["x"]] ["d"]
      [(["d", "a"], FileState.file 5)]).success_count = 2 - 1 ∧
       (copy_files_with_replace [["d", "a"], ["x"]] ["d"]
      [(["d", "a"], FileState.file 5)]).error_count = 1) := by
  decide

/-! ### C10: same final name means same destination, later copy wins -/

/-- C10: every source file is copied to the destination folder joined
with its final name component; two batch files sharing a final name go
to the same destination file, the later one overwrites the earlier one,
and both are counted as successes. -/
theorem same_name_overwrite_spec (f g d : FPath) (sf sg : Nat) (fs : FS)
    (hf : fs.look f = some (FileState.file sf))
    (hg : fs.look g = some (FileState.file sg))
    (hname : lastName g = lastName f)
    (hfd : f ≠ d ++ [lastName f])
    (hgd : g ≠ d ++ [lastName g])
    (hdst : fs.look (d ++ [lastName f]) ≠ some FileState.faulty) :
    (copy_files_with_replace [f, g] d fs).success_count = 2 ∧
    (copy_files_with_replace [f, g] d fs).error_count = 0 ∧
    (copy_files_with_replace [f, g] d fs).fs.look (d ++ [lastName f]) =
      some (FileState.file sg) := by
  obtain ⟨h1s, h1e, h1f⟩ := copyStep_success d (initState fs) f sf hf hfd hdst
  have hgne : g ≠ d ++ [lastName f] := by

    rw [← hname]
    exact hgd
  have hg2 : (copyStep d (initState fs) f).fs.look g = some (FileState.file sg) := by
    rw [h1f, FS.look_put_ne _ _ _ _ hgne]
    exact hg
  have hdst2 : (copyStep d (initState fs) f).fs.look (d ++ [lastName g]) ≠
      some FileState.faulty := by
    rw [h1f, hname, FS.look_put]
    simp
  obtain ⟨h2s, h2e, h2f⟩ :=
    copyStep_success d (copyStep d (initState fs) f) g sg hg2 hgd hdst2
  refine ⟨?_, ?_, ?_⟩
  · show ([f, g].foldl (copyStep d) (initState fs)).success_count = 2
    rw [List.foldl_cons, List.foldl_cons, List.foldl_nil, h2s, h1s]
    rfl
  · show ([f, g].foldl (copyStep d) (initState fs)).error_count = 0
    rw [List.foldl_cons, List.foldl_cons, List.foldl_nil, h2e, h1e]
    rfl
  · show ([f, g].foldl (copyStep d) (initState fs)).fs.look (d ++ [lastName f]) =
      some (FileState.file sg)
    rw [List.foldl_cons, List.foldl_cons, List.foldl_nil, h2f, hname, FS.look_put]

/-- Witness for `same_name_overwrite_spec`: two distinct sources both
named `a`, sized 5 and 7; the destination ends up holding 7 bytes and
both copies count as successes. -/
theorem same_name_overwrite_spec_witness :
    (copy_files_with_replace [["s", "a"], ["t", "a"]] ["d"]
      [(["s", "a"], FileState.file 5), (["t", "a"], FileState.file 7)]).success_count = 2 ∧
    (copy_files_with_replace [["s", "a"], ["t", "a"]] ["d"]
      [(["s", "a"], FileState.file 5), (["t", "a"], FileState.file 7)]).error_count = 0 ∧
    (copy_files_with_replace [["s", "a"], ["t", "a"]] ["d"]
      [(["s", "a"], FileState.file 5), (["t", "a"], FileState.file 7)]).fs.look
        (["d"] ++ [lastName ["s", "a"]]) = some (FileState.file 7) :=
  same_name_overwrite_spec ["s", "a"] ["t", "a"] ["d"] 5 7
    [(["s", "a"], FileState.file 5), (["t", "a"], FileState.file 7)]
    rfl rfl rfl (by decide) (by decide) (by decide)

/-! ### The watchdog event handler -/

theorem qLook_cons_self (m : List (String × Rat)) (pid : String) (v : Rat) :
    qLook ((pid, v) :: m) pid = v := by
  simp [qLook, List.lookup]

theorem qLook_cons_ne (m : List (String × Rat)) (pid q : String) (v : Rat) (h : q ≠ pid) :
    qLook ((pid, v) :: m) q = qLook m q := by
  have hb : (q == pid) = false := beq_eq_false_iff_ne.mpr h
  simp [qLook, List.lookup, hb]

theorem onModifiedGo_skip_one (registry : List (String × PairCfg)) (path : FPath)
    (now : Rat) (q : String) (rest : List String) (last : List (String × Rat))
    (h : ∀ pr, registry.lookup q = some pr → path ∉ pr.source_files) :
    onModifiedGo registry path now (q :: rest) last =
      onModifiedGo registry path now rest last := by
  conv_lhs => rw [onModifiedGo]
  cases hq : registry.lookup q with
  | none => rfl
  | some pair =>
    have hnm := h pair hq
    simp [hnm]

theorem onModifiedGo_skip (registry : List (String × PairCfg)) (path : FPath) (now : Rat)
    (pre : List String) :
    ∀ (rest : List String) (last : List (String × Rat)),
      (∀ q ∈ pre, ∀ pr, registry.lookup q = some pr → path ∉ pr.source_files) →
      onModifiedGo registry path now (pre ++ rest) last =
        onModifiedGo registry path now rest last := by
  induction pre with
  | nil => intro rest last _; rfl
  | cons q pre ih =>
    intro rest last h
    rw [List.cons_append, onModifiedGo_skip_one registry path now q (pre ++ rest) last
      (fun pr hpr => h q (List.mem_cons_self q pre) pr hpr)]
    exact ih rest last (fun p hp pr hpr => h p (List.mem_cons_of_mem q hp) pr hpr)
theorem onModifiedGo_invs_subset (registry : List (String × PairCfg)) (path : FPath)
    (now : Rat) :
    ∀ (watch : List String) (last : List (String × Rat)),
      ∀ q ∈ (onModifiedGo registry path now watch last).2, q ∈ watch := by
  intro watch
  induction watch with
  | nil => intro last q hq; simp [onModifiedGo] at hq
  | cons pid rest ih =>
    intro last q hq
    unfold onModifiedGo at hq
    cases hp : registry.lookup pid with
    | none =>
      rw [hp] at hq
      simp only at hq
      exact List.mem_cons_of_mem _ (ih last q hq)
    | some pair =>
      rw [hp] at hq
      simp only at hq
      by_cases hmem : path ∈ pair.source_files
      · rw [if_pos hmem] at hq
        by_cases hdeb : now - qLook last pid < 2
        · rw [if_pos hdeb] at hq
          simp at hq
        · rw [if_neg hdeb] at hq
          simp only [List.mem_cons] at hq ⊢
          rcases hq with hq | hq
          · exact Or.inl hq
          · exact Or.inr (ih ((pid, now) :: last) q hq)
      · rw [if_neg hmem] at hq
        exact List.mem_cons_of_mem _ (ih last q hq)

theorem onModifiedGo_trigger (registry : List (String × PairCfg)) (path : FPath) (now : Rat)
    (pid : String) (post : List String) (last : List (String × Rat)) (pair : PairCfg)
    (hpid : registry.lookup pid = some pair)
    (hmem : path ∈ pair.source_files)
    (hdeb : ¬ (now - qLook last pid < 2)) :
    onModifiedGo registry path now (pid :: post) last =
      ((onModifiedGo registry path now post ((pid, now) :: last)).1,
        pid :: (onModifiedGo registry path now post ((pid, now) :: last)).2) := by
  conv_lhs => rw [onModifiedGo]
  rw [hpid]
  simp [hmem, hdeb]

theorem onModifiedGo_return (registry : List (String × PairCfg)) (path : FPath) (now : Rat)
    (pid : String) (post : List String) (last : List (String × Rat)) (pair : PairCfg)
    (hpid : registry.lookup pid = some pair)
    (hmem : path ∈ pair.source_files)
    (hdeb : now - qLook last pid < 2) :
    onModifiedGo registry path now (pid :: post) last = (last, []) := by
  conv_lhs => rw [onModifiedGo]
  rw [hpid]
  simp [hmem, hdeb]

theorem onModifiedGo_last_untouched (registry : List (String × PairCfg)) (path : FPath)
    (now : Rat) :
    ∀ (watch : List String) (last : List (String × Rat)) (q : String), q ∉ watch →
      (onModifiedGo registry path now watch last).1.lookup q = last.lookup q := by
  intro watch
  induction watch with
  | nil => intro last q _; rfl
  | cons pid rest ih =>
    intro last q hq
    have hqpid : q ≠ pid := fun h => hq (h ▸ List.mem_cons_self pid rest)
    have hqrest : q ∉ rest := fun h => hq (List.mem_cons_of_mem _ h)
    have hb : (q == pid) = false := beq_eq_false_iff_ne.mpr hqpid
    cases hp : registry.lookup pid with
    | none =>
      rw [onModifiedGo_skip_one registry path now pid rest last
        (fun pr hpr => by rw [hp] at hpr; cases hpr)]
      exact ih last q hqrest
    | some pair =>
      by_cases hmem : path ∈ pair.source_files
      · by_cases hdeb : now - qLook last pid < 2
        · rw [onModifiedGo_return registry path now pid rest last pair hp hmem hdeb]
        · rw [onModifiedGo_trigger registry path now pid rest last pair hp hmem hdeb]
          simp only
          rw [ih ((pid, now) :: last) q hqrest]
          simp [List.lookup, hb]
      · rw [onModifiedGo_skip_one registry path now pid rest last
          (fun pr hpr => by
            rw [hp] at hpr
            injection hpr with hpr'
            subst hpr'
            exact hmem)]
        exact ih last q hqrest
theorem on_modified_eq (st : HandlerState) (path : FPath) (now : Rat) :
    on_modified st false path now =
      ({ st with last_triggered :=
          (onModifiedGo st.file_pairs path now st.watch_pairs st.last_triggered).1 },
        (onModifiedGo st.file_pairs path now st.watch_pairs st.last_triggered).2) := by
  unfold on_modified
  simp

theorem on_modified_debounced (st : HandlerState) (path : FPath) (now : Rat)
    (pre post : List String) (pid : String) (pair : PairCfg)
    (hwatch : st.watch_pairs = pre ++ pid :: post)
    (hskip : ∀ q ∈ pre, ∀ pr, st.file_pairs.lookup q = some pr → path ∉ pr.source_files)
    (hpid : st.file_pairs.lookup pid = some pair)
    (hmem : path ∈ pair.source_files)
    (hdeb : now - qLook st.last_triggered pid < 2) :
    on_modified st false path now = (st, []) := by
  rw [on_modified_eq, hwatch,
    onModifiedGo_skip st.file_pairs path now pre (pid :: post) st.last_triggered hskip,
    onModifiedGo_return st.file_pairs path now pid post st.last_triggered pair hpid hmem hdeb,
    ← hwatch]

/-- C9: when a modification event reaches a pair that is inside its
2-second debounce window (every earlier pair in watch order not matching
the path), the handler returns from the whole event at once: the state
is unchanged and no pair — in particular no later pair, even one whose
own window has elapsed — is examined or triggered. -/
theorem debounce_early_return_spec (st : HandlerState) (path : FPath) (now : Rat)
    (pre post : List String) (pid : String) (pair : PairCfg)
    (hwatch : st.watch_pairs = pre ++ pid :: post)
    (hskip : ∀ q ∈ pre, ∀ pr, st.file_pairs.lookup q = some pr → path ∉ pr.source_files)
    (hpid : st.file_pairs.lookup pid = some pair)
    (hmem : path ∈ pair.source_files)
    (hdeb : now - qLook st.last_triggered pid < 2) :
    on_modified st false path now = (st, []) :=
  on_modified_debounced st path now pre post pid pair hwatch hskip hpid hmem hdeb

/-- Witness for `debounce_early_return_spec`: pair `a` is matched and
still inside its window (its last trigger is 99, the event is at 100),
so nothing happens — although the later pair `b`, watching the same
file, has an elapsed window. -/
theorem debounce_early_return_spec_witness :
    on_modified ⟨twoPairRegistry, ["a", "b"], [("a", 99), ("b", 0)]⟩ false ["f"] 100 =
      (⟨twoPairRegistry, ["a", "b"], [("a", 99), ("b", 0)]⟩, []) :=
  debounce_early_return_spec ⟨twoPairRegistry, ["a", "b"], [("a", 99), ("b", 0)]⟩ ["f"] 100
    [] ["b"] "a" ⟨"A", [["f"]], ["ta"]⟩
    rfl
    (by intro q hq; simp at hq)
    rfl
    (by decide)
    (by norm_num [qLook, List.lookup])

theorem on_modified_first_match (st : HandlerState) (path : FPath) (now : Rat)
    (pre post : List String) (pid : String) (pair : PairCfg)
    (hwatch : st.watch_pairs = pre ++ pid :: post)
    (hskip : ∀ q ∈ pre, ∀ pr, st.file_pairs.lookup q = some pr → path ∉ pr.source_files)
    (hpid : st.file_pairs.lookup pid = some pair)
    (hmem : path ∈ pair.source_files)
    (hdeb : ¬ (now - qLook st.last_triggered pid < 2)) :
    ∃ inv, (on_modified st false path now).2 = pid :: inv ∧ (∀ q ∈ inv, q ∈ post) ∧
      (pid ∉ post → qLook (on_modified st false path now).1.last_triggered pid = now) ∧
      (on_modified st false path now).1.file_pairs = st.file_pairs ∧
      (on_modified st false path now).1.watch_pairs = st.watch_pairs := by
  have hgo : onModifiedGo st.file_pairs path now st.watch_pairs st.last_triggered =
      ((onModifiedGo st.file_pairs path now post ((pid, now) :: st.last_triggered)).1,
        pid :: (onModifiedGo st.file_pairs path now post ((pid, now) :: st.last_triggered)).2) := by
    rw [hwatch, onModifiedGo_skip st.file_pairs path now pre _ _ hskip,
      onModifiedGo_trigger st.file_pairs path now pid post st.last_triggered pair hpid hmem hdeb]
  refine ⟨(onModifiedGo st.file_pairs path now post ((pid, now) :: st.last_triggered)).2,
    ?_, ?_, ?_, ?_, ?_⟩
  · rw [on_modified_eq, hgo]
  · intro q hq
    exact onModifiedGo_invs_subset st.file_pairs path now post _ q hq
  · intro hpost
    rw [on_modified_eq, hgo]
    show qLook (onModifiedGo st.file_pairs path now post ((pid, now) :: st.last_triggered)).1
      pid = now
    unfold qLook
    rw [onModifiedGo_last_untouched st.file_pairs path now post _ pid hpost]
    simp [List.lookup]
  · rw [on_modified_eq]
  · rw [on_modified_eq]

/-- C3: for a watched pair that is the first match of the event path in
watch order and is listed once, two events on the same watched file less
than 2 seconds apart (measured from the pair's last trigger) invoke its
copy exactly once: the first event triggers and stamps its time, the
second returns immediately with no state change and no copy.  Two
events 2 or more seconds apart invoke its copy exactly twice. -/
theorem debounce_spec (st : HandlerState) (path : FPath) (t1 t2 : Rat)
    (pre post : List String) (pid : String) (pair : PairCfg)
    (hwatch : st.watch_pairs = pre ++ pid :: post)
    (hskip : ∀ q ∈ pre, ∀ pr, st.file_pairs.lookup q = some pr → path ∉ pr.source_files)
    (hpid : st.file_pairs.lookup pid = some pair)
    (hmem : path ∈ pair.source_files)
    (hpost : pid ∉ post)
    (h1 : ¬ (t1 - qLook st.last_triggered pid < 2)) :
    (on_modified st false path t1).2.count pid = 1 ∧
    qLook (on_modified st false path t1).1.last_triggered pid = t1 ∧
    (t2 - t1 < 2 →
      on_modified (on_modified st false path t1).1 false path t2 =
        ((on_modified st false path t1).1, []) ∧
      ((on_modified st false path t1).2 ++
        (on_modified (on_modified st false path t1).1 false path t2).2).count pid = 1) ∧
    (¬ (t2 - t1 < 2) →
      ((on_modified st false path t1).2 ++
        (on_modified (on_modified st false path t1).1 false path t2).2).count pid = 2) := by
  obtain ⟨inv1, hinv1, hsub1, hlastf, hfp1, hwp1⟩ :=
    on_modified_first_match st path t1 pre post pid pair hwatch hskip hpid hmem h1
  have hlast1 := hlastf hpost
  have hn1 : inv1.count pid = 0 := List.count_eq_zero.mpr (fun h => hpost (hsub1 pid h))
  have hcount1 : (on_modified st false path t1).2.count pid = 1 := by
    rw [hinv1, List.count_cons_self, hn1]
  have hskip1 : ∀ q ∈ pre, ∀ pr,
      (on_modified st false path t1).1.file_pairs.lookup q = some pr →
        path ∉ pr.source_files := by
    rw [hfp1]; exact hskip
  have hpid1 : (on_modified st false path t1).1.file_pairs.lookup pid = some pair := by
    rw [hfp1]; exact hpid
  refine ⟨hcount1, hlast1, fun h2 => ?_, fun h2 => ?_⟩
  · have hdeb2 : t2 - qLook (on_modified st false path t1).1.last_triggered pid < 2 := by
      rw [hlast1]; exact h2
    have hdrop := on_modified_debounced (on_modified st false path t1).1 path t2 pre post
      pid pair (hwp1.trans hwatch) hskip1 hpid1 hmem hdeb2
    refine ⟨hdrop, ?_⟩
    rw [List.count_append, hdrop]
    simp only [List.count_nil]
    rw [hcount1]
  · have hdeb2 : ¬ (t2 - qLook (on_modified st false path t1).1.last_triggered pid < 2) := by
      rw [hlast1]; exact h2
    obtain ⟨inv2, hinv2, hsub2, _, _, _⟩ :=
      on_modified_first_match (on_modified st false path t1).1 path t2 pre post pid pair
        (hwp1.trans hwatch) hskip1 hpid1 hmem hdeb2
    have hn2 : inv2.count pid = 0 := List.count_eq_zero.mpr (fun h => hpost (hsub2 pid h))
    rw [List.count_append, hinv1, hinv2, List.count_cons_self, List.count_cons_self, hn1, hn2]

/-- Witness for `debounce_spec`: one watched pair, last trigger 0,
events at times 10 and 11: the second is debounced, one invocation; the
same theorem applied at times 10 and 13 gives two invocations. -/
theorem debounce_spec_witness :
    (on_modified ⟨twoPairRegistry, ["a"], [("a", 0)]⟩ false ["f"] 10).2.count "a" = 1 ∧
    qLook (on_modified ⟨twoPairRegistry, ["a"], [("a", 0)]⟩ false ["f"] 10).1.last_triggered
      "a" = 10 ∧
    ((on_modified ⟨twoPairRegistry, ["a"], [("a", 0)]⟩ false ["f"] 10).2 ++
      (on_modified (on_modified ⟨twoPairRegistry, ["a"], [("a", 0)]⟩ false ["f"] 10).1
        false ["f"] 11).2).count "a" = 1 ∧
    ((on_modified ⟨twoPairRegistry, ["a"], [("a", 0)]⟩ false ["f"] 10).2 ++
      (on_modified (on_modified ⟨twoPairRegistry, ["a"], [("a", 0)]⟩ false ["f"] 10).1
        false ["f"] 13).2).count "a" = 2 := by
  have h11 := debounce_spec ⟨twoPairRegistry, ["a"], [("a", 0)]⟩ ["f"] 10 11 [] [] "a"
    ⟨"A", [["f"]], ["ta"]⟩ rfl (by intro q hq; simp at hq) rfl (by decide)
    (by simp) (by norm_num [qLook, List.lookup])
  have h13 := debounce_spec ⟨twoPairRegistry, ["a"], [("a", 0)]⟩ ["f"] 10 13 [] [] "a"
    ⟨"A", [["f"]], ["ta"]⟩ rfl (by intro q hq; simp at hq) rfl (by decide)
    (by simp) (by norm_num [qLook, List.lookup])
  exact ⟨h11.1, h11.2.1, (h11.2.2.1 (by norm_num)).2, h13.2.2.2 (by norm_num)⟩

/-! ### C4: one event can trigger several matching pairs -/

theorem onModifiedGo_all_elapsed (registry : List (String × PairCfg)) (path : FPath)
    (now : Rat) :
    ∀ (watch : List String) (last : List (String × Rat)), watch.Nodup →
      (∀ pid ∈ watch, ∀ pair, registry.lookup pid = some pair →
        path ∈ pair.source_files → ¬ (now - qLook last pid < 2)) →
      (onModifiedGo registry path now watch last).2 =
        watch.filter (fun pid =>
          match registry.lookup pid with
          | some pair => decide (path ∈ pair.source_files)
          | none => false) := by
  intro watch
  induction watch with
  | nil => intro last _ _; rfl
  | cons pid rest ih =>
    intro last hnd hel
    have hndrest : rest.Nodup := (List.nodup_cons.mp hnd).2
    have hpidrest : pid ∉ rest := (List.nodup_cons.mp hnd).1
    cases hp : registry.lookup pid with
    | none =>
      rw [onModifiedGo_skip_one registry path now pid rest last
        (fun pr hpr => by rw [hp] at hpr; cases hpr)]
      rw [List.filter_cons]
      simp only [hp]
      rw [if_neg (by simp)]
      exact ih last hndrest
        (fun q hq pr hpr hm => hel q (List.mem_cons_of_mem _ hq) pr hpr hm)
    | some pair =>
      by_cases hmem : path ∈ pair.source_files
      · have hdeb : ¬ (now - qLook last pid < 2) :=
          hel pid (List.mem_cons_self pid rest) pair hp hmem
        rw [onModifiedGo_trigger registry path now pid rest last pair hp hmem hdeb]
        rw [List.filter_cons]
        simp only [hp, hmem]
        rw [if_pos (by simp)]
        simp only [List.cons.injEq, true_and]
        rw [ih ((pid, now) :: last) hndrest]
        intro q hq pr hpr hm
        have hqpid : q ≠ pid := fun h => hpidrest (h ▸ hq)
        rw [qLook_cons_ne last pid q now hqpid]
        exact hel q (List.mem_cons_of_mem _ hq) pr hpr hm
      · rw [onModifiedGo_skip_one registry path now pid rest last
          (fun pr hpr => by
            rw [hp] at hpr
            injection hpr with hpr'
            subst hpr'
            exact hmem)]
        rw [List.filter_cons]
        simp only [hp, hmem]
        rw [if_neg (by simp [hmem])]
        exact ih last hndrest
          (fun q hq pr hpr hm => hel q (List.mem_cons_of_mem _ hq) pr hpr hm)

/-- C4 (amended): the `break` of the source only leaves the inner loop
over `source_files`, so one modification event acts on every watched
pair (in registration order) whose source list contains the event path,
not only the first: when every matching pair's debounce window has
elapsed and the watch list has no duplicates, the invoked pairs are
exactly the matching ones, in order.  (An event stops early only when a
matching pair is still inside its debounce window.) -/
theorem event_triggers_all_matching_pairs (st : HandlerState) (path : FPath) (now : Rat)
    (hnodup : st.watch_pairs.Nodup)
    (helapsed : ∀ pid ∈ st.watch_pairs, ∀ pair, st.file_pairs.lookup pid = some pair →
      path ∈ pair.source_files → ¬ (now - qLook st.last_triggered pid < 2)) :
    (on_modified st false path now).2 =
      st.watch_pairs.filter (fun pid =>
        match st.file_pairs.lookup pid with
        | some pair => decide (path ∈ pair.source_files)
        | none => false) := by
  rw [on_modified_eq]
  exact onModifiedGo_all_elapsed st.file_pairs path now st.watch_pairs st.last_triggered
    hnodup helapsed

/-- Witness for `event_triggers_all_matching_pairs` on the two-pair
handler: both pairs match the event and both are invoked. -/
theorem event_triggers_all_matching_pairs_witness :
    (on_modified twoPairHandler false ["f"] 100).2 =
      twoPairHandler.watch_pairs.filter (fun pid =>
        match twoPairHandler.file_pairs.lookup pid with
        | some pair => decide (["f"] ∈ pair.source_files)
        | none => false) :=
  event_triggers_all_matching_pairs twoPairHandler ["f"] 100
    (by decide)
    (by intro pid hpid pair hpair hm
        fin_cases hpid <;>
          norm_num [qLook, List.lookup, show (("b" : String) == "a") = false from by decide])

/-- C4 counterexample: a single modification event on a file watched by
two pairs invokes the copy for both pairs, refuting "at most one pair
has its copy invoked". -/
theorem first_match_counterexample :
    (on_modified twoPairHandler false ["f"] 100).2 = ["a", "b"] ∧
    ¬ ((on_modified twoPairHandler false ["f"] 100).2.length ≤ 1) := by
  have hgo : on_modified twoPairHandler false ["f"] 100 =
      ({ twoPairHandler with last_triggered :=
          (onModifiedGo twoPairRegistry ["f"] 100 ["a", "b"]
            [("a", 0), ("b", 0)]).1 },
        (onModifiedGo twoPairRegistry ["f"] 100 ["a", "b"] [("a", 0), ("b", 0)]).2) :=
    on_modified_eq twoPairHandler ["f"] 100
  have h1 : onModifiedGo twoPairRegistry ["f"] 100 ["a", "b"] [("a", 0), ("b", 0)] =
      ((onModifiedGo twoPairRegistry ["f"] 100 ["b"] [("a", 100), ("a", 0), ("b", 0)]).1,
        "a" :: (onModifiedGo twoPairRegistry ["f"] 100 ["b"]
          [("a", 100), ("a", 0), ("b", 0)]).2) :=
    onModifiedGo_trigger twoPairRegistry ["f"] 100 "a" ["b"] [("a", 0), ("b", 0)]
      ⟨"A", [["f"]], ["ta"]⟩ rfl (by decide) (by norm_num [qLook, List.lookup])
  have h2 : onModifiedGo twoPairRegistry ["f"] 100 ["b"] [("a", 100), ("a", 0), ("b", 0)] =
      ((onModifiedGo twoPairRegistry ["f"] 100 []
          [("b", 100), ("a", 100), ("a", 0), ("b", 0)]).1,
        "b" :: (onModifiedGo twoPairRegistry ["f"] 100 []
          [("b", 100), ("a", 100), ("a", 0), ("b", 0)]).2) :=
    onModifiedGo_trigger twoPairRegistry ["f"] 100 "b" [] [("a", 100), ("a", 0), ("b", 0)]
      ⟨"B", [["f"]], ["tb"]⟩ rfl (by decide)
      (by rw [show qLook [("a", 100), ("a", 0), ("b", 0)] "b" = (0 : Rat) from rfl]
          norm_num)
  constructor
  · rw [hgo, h1, h2]
    rfl
  · rw [hgo, h1, h2]
    simp [onModifiedGo]

/-! ### C5: validation of the explicit pair-id list -/

/-- C5: in auto mode with an explicit `--pairs` list, if at least one
listed id is absent from the registry, the dispatch reports exactly the
invalid ids and exits with code 1; the `invalidPairs` outcome starts no
watch, runs no copy and performs no filesystem write.  If every listed
id is present, no early exit occurs and the watch starts on the listed
ids. -/
theorem pairs_validation (s : String) (registry : List (String × PairCfg))
    (hs : s ≠ "") :
    ((∃ pid ∈ splitComma s, registry.lookup pid = none) →
      mainDispatch true (some s) registry =
        ProgResult.invalidPairs
          ((splitComma s).filter (fun p => (registry.lookup p).isNone)) ∧
      ((splitComma s).filter (fun p => (registry.lookup p).isNone)) ≠ [] ∧
      (∀ pid ∈ (splitComma s).filter (fun p => (registry.lookup p).isNone),
        registry.lookup pid = none) ∧
      exitCodeOf (mainDispatch true (some s) registry) = 1) ∧
    ((∀ pid ∈ splitComma s, (registry.lookup pid).isSome) →
      mainDispatch true (some s) registry = ProgResult.watch (splitComma s) ∧
      exitCodeOf (mainDispatch true (some s) registry) = 0) := by
  constructor
  · rintro ⟨pid, hmem, hnone⟩
    have hne : ((splitComma s).filter (fun p => (registry.lookup p).isNone)) ≠ [] :=
      List.ne_nil_of_mem (List.mem_filter.mpr ⟨hmem, by simp [hnone]⟩)
    have hemp : ((splitComma s).filter (fun p => (registry.lookup p).isNone)).isEmpty =
        false := by
      cases hx : ((splitComma s).filter (fun p => (registry.lookup p).isNone)).isEmpty
      · rfl
      · exact absurd (List.isEmpty_iff.mp hx) hne
    refine ⟨?_, hne, ?_, ?_⟩
    · unfold mainDispatch
      simp [hs, hemp]
    · intro q hq
      exact Option.isNone_iff_eq_none.mp (List.mem_filter.mp hq).2
    · unfold mainDispatch exitCodeOf
      simp [hs, hemp]
  · intro hall
    have hfil : ((splitComma s).filter (fun p => (registry.lookup p).isNone)) = [] := by
      rw [List.filter_eq_nil_iff]
      intro a ha
      have h2 := hall a ha
      cases hx : registry.lookup a with
      | none => rw [hx] at h2; cases h2
      | some v => simp [hx]
    constructor
    · unfold mainDispatch
      simp [hs, hfil]
    · unfold mainDispatch exitCodeOf
      simp [hs, hfil]

/-- Witness for `pairs_validation` on the real registry with the list
`pair1,bogus`: the dispatch exits with code 1 carrying the invalid id. -/
theorem pairs_validation_witness :
    mainDispatch true (some "pair1,bogus") file_pairs =
      ProgResult.invalidPairs
        ((splitComma "pair1,bogus").filter (fun p => (file_pairs.lookup p).isNone)) ∧
    exitCodeOf (mainDispatch true (some "pair1,bogus") file_pairs) = 1 := by
  have h := (pairs_validation "pair1,bogus" file_pairs (by decide)).1
    ⟨"bogus", by decide, by decide⟩
  exact ⟨h.1, h.2.2.2⟩

/-- Python's `if args.pairs:` is a truthiness test, so an empty
`--pairs` string is not validated: it falls through to interactive
pair selection, like an absent flag. -/
theorem mainDispatch_empty_pairs (registry : List (String × PairCfg)) :
    mainDispatch true (some "") registry = ProgResult.watchInteractive := by
  unfold mainDispatch
  simp

/-! ### Substring machinery for the console lines -/

theorem infixOf_nil (s : List Char) : infixOf [] s = true := by
  induction s with
  | nil => rfl
  | cons c r ih =>
    unfold infixOf
    rw [ih]
    simp [List.isPrefixOf]

theorem infixOf_append_right (m a b : List Char) (h : infixOf m a = true) :
    infixOf m (a ++ b) = true := by
  induction a with
  | nil =>
    have hm : m = [] := by
      unfold infixOf at h
      simpa [List.isEmpty_iff] using h
    subst hm
    exact infixOf_nil b
  | cons c a ih =>
    unfold infixOf at h
    rcases (Bool.or_eq_true _ _).mp h with hp | hi
    · show infixOf m (c :: (a ++ b)) = true
      unfold infixOf
      have h1 : m <+: c :: (a ++ b) :=
        (List.isPrefixOf_iff_prefix.mp hp).trans ⟨b, by simp⟩
      rw [List.isPrefixOf_iff_prefix.mpr h1]
      simp
    · show infixOf m (c :: (a ++ b)) = true
      unfold infixOf
      rw [ih hi]
      simp

theorem infixOf_append_left (m a b : List Char) (h : infixOf m b = true) :
    infixOf m (a ++ b) = true := by
  induction a with
  | nil => simpa using h
  | cons c a ih =>
    show infixOf m (c :: (a ++ b)) = true
    unfold infixOf
    rw [ih]
    simp

theorem infixOf_self_start (m b : List Char) : infixOf m (m ++ b) = true := by
  cases m with
  | nil => exact infixOf_nil b
  | cons c t =>
    show infixOf (c :: t) (c :: (t ++ b)) = true
    unfold infixOf
    have h1 : (c :: t) <+: c :: (t ++ b) := ⟨b, by simp⟩
    rw [List.isPrefixOf_iff_prefix.mpr h1]
    simp

theorem infixOf_mem (m s : List Char) (h : infixOf m s = true) : ∀ c ∈ m, c ∈ s := by
  induction s with
  | nil =>
    unfold infixOf at h
    have hm : m = [] := by simpa [List.isEmpty_iff] using h
    subst hm
    simp
  | cons x rest ih =>
    unfold infixOf at h
    rcases (Bool.or_eq_true _ _).mp h with hp | hi
    · intro c hc
      exact (List.isPrefixOf_iff_prefix.mp hp).sublist.mem hc
    · intro c hc
      exact List.mem_cons_of_mem x (ih hi c hc)

theorem infixOf_false_of_not_mem (c : Char) (t s : List Char) (h : c ∉ s) :
    infixOf (c :: t) s = false := by
  cases hx : infixOf (c :: t) s
  · rfl
  · exact absurd (infixOf_mem _ _ hx c (List.mem_cons_self c t)) h

theorem infixOf_singleton_mem (c : Char) (s : List Char) (h : c ∈ s) :
    infixOf [c] s = true := by
  induction s with
  | nil => simp at h
  | cons x rest ih =>
    unfold infixOf
    rcases List.mem_cons.mp h with h' | h'
    · subst h'
      simp [List.isPrefixOf]
    · rw [ih h']
      simp

theorem bracket_not_in_format_size (b : Nat) : '[' ∉ format_size b := by
  intro h
  rcases format_size_chars b '[' h with h' | h'
  · exact absurd h' (by decide)
  · exact absurd h' (by decide)

/-! ### C7: the per-file report line -/

theorem copyStep_copied_line (d : FPath) (st : CopyState) (f : FPath) (s : Nat)
    (hsrc : st.fs.look f = some (FileState.file s))
    (hne : f ≠ d ++ [lastName f])
    (hdst : st.fs.look (d ++ [lastName f]) ≠ some FileState.faulty) :
    ∃ origSize : Nat,
      (st.fs.look (d ++ [lastName f]) = some (FileState.file origSize) ∨
        (origSize = 0 ∧ st.fs.look (d ++ [lastName f]) = none)) ∧
      (copyStep d st f).lines = st.lines ++ [Line.copied (lastName f) origSize s d] := by
  unfold copyStep
  cases hf : st.fs.look f with
  | none => rw [hf] at hsrc; cases hsrc
  | some fstate =>
    cases fstate with
    | faulty => rw [hf] at hsrc; cases hsrc
    | file sz =>
      have hs : sz = s := by
        rw [hf] at hsrc
        injection hsrc with h'
        injection h'
      subst hs
      cases hd : st.fs.look (d ++ [lastName f]) with
      | none =>
        refine ⟨0, Or.inr ⟨rfl, rfl⟩, ?_⟩
        simp [copyWrite, hne]
      | some dstate =>
        cases dstate with
        | faulty => exact absurd hd hdst
        | file t =>
          refine ⟨t, Or.inl rfl, ?_⟩
          simp [copyWrite, hne]

/-- C7 (amended): each successfully copied file emits one line carrying
the file name and the size-before → size-after rendering; the line
carries the bracketed signed delta exactly when a destination file with
the same name existed with nonzero size before the copy.  (A
pre-existing empty destination file yields no bracket, see
`report_line_zero_size_counterexample`.)  Stated for file names and
destination renderings free of the bracket character, as all registry
entries are. -/
theorem report_line_spec (d : FPath) (st : CopyState) (f : FPath) (s : Nat)
    (hsrc : st.fs.look f = some (FileState.file s))
    (hne : f ≠ d ++ [lastName f])
    (hdst : st.fs.look (d ++ [lastName f]) ≠ some FileState.faulty)
    (hnm : '[' ∉ (lastName f).data)
    (hdf : '[' ∉ pathChars d) :
    ∃ origSize : Nat,
      (st.fs.look (d ++ [lastName f]) = some (FileState.file origSize) ∨
        (origSize = 0 ∧ st.fs.look (d ++ [lastName f]) = none)) ∧
      (copyStep d st f).lines = st.lines ++ [Line.copied (lastName f) origSize s d] ∧
      infixOf (lastName f).data
        (renderLine (Line.copied (lastName f) origSize s d)) = true ∧
      infixOf (format_size origSize ++ " → ".data ++ format_size s)
        (renderLine (Line.copied (lastName f) origSize s d)) = true ∧
      (infixOf ['[']
          (renderLine (Line.copied (lastName f) origSize s d)) = true ↔
        ∃ t, st.fs.look (d ++ [lastName f]) = some (FileState.file t) ∧ 0 < t) := by
  obtain ⟨o, ho, hlines⟩ := copyStep_copied_line d st f s hsrc hne hdst
  refine ⟨o, ho, hlines, ?_, ?_, ?_⟩
  · simp only [renderLine, List.append_assoc]
    exact infixOf_append_left _ _ _ (infixOf_self_start _ _)
  · simp only [renderLine, List.append_assoc]
    apply infixOf_append_left
    apply infixOf_append_left
    apply infixOf_append_left
    simpa [List.append_assoc] using
      infixOf_self_start (format_size o ++ (" → ".data ++ format_size s)) _
  · constructor
    · intro hbr
      by_cases ho' : 0 < o
      · rcases ho with ho | ⟨ho0, _⟩
        · exact ⟨o, ho, ho'⟩
        · omega
      · exfalso
        have hmem' := infixOf_mem _ _ hbr '[' (List.mem_cons_self _ _)
        have h1 : '[' ∉ format_size o := bracket_not_in_format_size o
        have h2 : '[' ∉ format_size s := bracket_not_in_format_size s
        simp [renderLine, if_neg ho', List.mem_append, hnm, hdf, h1, h2] at hmem'
    · rintro ⟨t, ht, htpos⟩
      have hot : o = t := by
        rcases ho with ho | ⟨ho0, hnone⟩
        · rw [ho] at ht
          injection ht with h'
          injection h'
        · rw [hnone] at ht; cases ht
      have hpos : 0 < o := hot ▸ htpos
      apply infixOf_singleton_mem
      have hbrmem : '[' ∈ " [".data := by decide
      simp only [renderLine, if_pos hpos, bracketChars, List.mem_append]
      tauto

/-- Witness for `report_line_spec`: the destination already holds a
3-byte file named `a`, the 5-byte source is copied over it, and the
emitted line carries the bracketed delta. -/
theorem report_line_spec_witness :
    ∃ origSize : Nat,
      (FS.look [(["s", "a"], FileState.file 5), (["d", "a"], FileState.file 3)]
          (["d"] ++ [lastName ["s", "a"]]) = some (FileState.file origSize) ∨
        (origSize = 0 ∧
          FS.look [(["s", "a"], FileState.file 5), (["d", "a"], FileState.file 3)]
            (["d"] ++ [lastName ["s", "a"]]) = none)) ∧
      (copyStep ["d"]
          (initState [(["s", "a"], FileState.file 5), (["d", "a"], FileState.file 3)])
          ["s", "a"]).lines =
        (initState [(["s", "a"], FileState.file 5), (["d", "a"], FileState.file 3)]).lines ++
          [Line.copied (lastName ["s", "a"]) origSize 5 ["d"]] ∧
      infixOf (lastName ["s", "a"]).data
        (renderLine (Line.copied (lastName ["s", "a"]) origSize 5 ["d"])) = true ∧
      infixOf (format_size origSize ++ " → ".data ++ format_size 5)
        (renderLine (Line.copied (lastName ["s", "a"]) origSize 5 ["d"])) = true ∧
      (infixOf ['[']
          (renderLine (Line.copied (lastName ["s", "a"]) origSize 5 ["d"])) = true ↔
        ∃ t, FS.look [(["s", "a"], FileState.file 5), (["d", "a"], FileState.file 3)]
            (["d"] ++ [lastName ["s", "a"]]) = some (FileState.file t) ∧ 0 < t) :=
  report_line_spec ["d"]
    (initState [(["s", "a"], FileState.file 5), (["d", "a"], FileState.file 3)])
    ["s", "a"] 5 rfl (by decide) (by decide) (by decide) (by decide)

/-- C7 counterexample: the destination file exists with size 0 before
the copy, yet the emitted line has no bracketed delta — refuting
"bracket exactly when a destination file with the same name already
existed". -/
theorem report_line_zero_size_counterexample :
    FS.exi [(["d", "a"], FileState.file 0), (["s", "a"], FileState.file 5)] ["d", "a"] =
      true ∧
    (copy_files_with_replace [["s", "a"]] ["d"]
        [(["d", "a"], FileState.file 0), (["s", "a"], FileState.file 5)]).lines.getD 0
        Line.blank =
      Line.copied "a" 0 5 ["d"] ∧
    infixOf ['[']
      (renderLine ((copy_files_with_replace [["s", "a"]] ["d"]
        [(["d", "a"], FileState.file 0), (["s", "a"], FileState.file 5)]).lines.getD 0
        Line.blank)) = false := by
  decide

/-! ### C8: whitespace splitting and the summary-line tokens -/

theorem natToChars_no_space (n : Nat) : ∀ c ∈ natToChars n, c ≠ ' ' := by
  intro c hc heq
  have hdig := natToChars_digits n c hc
  rw [heq] at hdig
  exact absurd hdig (by decide)

theorem natToChars_no_comma (n : Nat) : ∀ c ∈ natToChars n, ¬ (c = ',') := by
  intro c hc heq
  have hdig := natToChars_digits n c hc
  rw [heq] at hdig
  exact absurd hdig (by decide)

theorem splitSpacesGo_word (w : List Char) :
    ∀ (acc rest : List Char), (∀ c ∈ w, c ≠ ' ') → (acc = [] → w ≠ []) →
      splitSpacesGo (w ++ ' ' :: rest) acc =
        (acc.reverse ++ w) :: splitSpacesGo rest [] := by
  induction w with
  | nil =>
    intro acc rest _ hne
    cases acc with
    | nil => exact absurd rfl (hne rfl)
    | cons a as =>
      show splitSpacesGo (' ' :: rest) (a :: as) = _
      conv_lhs => rw [splitSpacesGo]
      rw [if_pos rfl, if_neg (by simp), List.append_nil]
  | cons c w ih =>
    intro acc rest hw hne
    have hc : c ≠ ' ' := hw c (List.mem_cons_self c w)
    show splitSpacesGo (c :: (w ++ ' ' :: rest)) acc = _
    conv_lhs => rw [splitSpacesGo]
    rw [if_neg hc, ih (c :: acc) rest (fun x hx => hw x (List.mem_cons_of_mem _ hx)) (by simp),
      List.reverse_cons, List.append_assoc]
    rfl

theorem splitSpaces_word (w rest : List Char) (hw : ∀ c ∈ w, c ≠ ' ') (hne : w ≠ []) :
    splitSpaces (w ++ ' ' :: rest) = w :: splitSpaces rest := by
  unfold splitSpaces
  rw [splitSpacesGo_word w [] rest hw (fun _ => hne)]
  rfl

theorem summary_tokens (s e ts td : Nat) :
    ∃ restTokens, splitSpaces (renderLine (Line.summary s e ts td)) =
      "📊".data :: "复制完成!".data :: "成功:".data :: (natToChars s ++ [',']) ::
        "失败:".data :: natToChars e :: restTokens := by
  have hchars : renderLine (Line.summary s e ts td) =
      "📊".data ++ ' ' :: ("复制完成!".data ++ ' ' :: ("成功:".data ++ ' ' ::
        ((natToChars s ++ [',']) ++ ' ' :: ("失败:".data ++ ' ' ::
          (natToChars e ++ ' ' :: ('|' :: ' ' :: '总' :: '大' :: '小' :: ':' :: ' ' ::
            (format_size ts ++ (" → ".data ++ (format_size td ++
              (if td ≠ ts then bracketChars td ts else [])))))))))) := by
    simp [renderLine, List.append_assoc]
  rw [hchars]
  rw [splitSpaces_word _ _ (by decide) (by decide)]
  rw [splitSpaces_word _ _ (by decide) (by decide)]
  rw [splitSpaces_word _ _ (by decide) (by decide)]
  rw [splitSpaces_word _ _ (by
      intro c hc
      rcases List.mem_append.mp hc with h | h
      · exact natToChars_no_space s c h
      · simp at h
        subst h
        decide)
    (by simp)]
  rw [splitSpaces_word _ _ (by decide) (by decide)]
  rw [splitSpaces_word _ _ (natToChars_no_space e) (natToChars_ne_nil e)]
  exact ⟨_, rfl⟩

theorem stripCommas_digits_comma (n : Nat) :
    stripCommas (natToChars n ++ [',']) = natToChars n := by
  unfold stripCommas
  rw [List.filter_append, List.filter_eq_self.mpr
    (by intro a ha; simpa using natToChars_no_comma n a ha)]
  simp

theorem stripCommas_digits (n : Nat) : stripCommas (natToChars n) = natToChars n := by
  unfold stripCommas
  rw [List.filter_eq_self.mpr (by intro a ha; simpa using natToChars_no_comma n a ha)]

theorem digitsComma_ne_tokenErr (s : Nat) : ((natToChars s ++ [',']) == tokenErr) = false := by
  apply beq_eq_false_iff_ne.mpr
  intro h
  cases hx : natToChars s with
  | nil => exact absurd hx (natToChars_ne_nil s)
  | cons c t =>
    rw [hx] at h
    have hc : c.isDigit = true := natToChars_digits s c (by rw [hx]; exact List.mem_cons_self c t)
    have hh : c = '失' := by
      have := congrArg (fun l => l.headD ' ') h
      simpa [tokenErr] using this
    rw [hh] at hc
    exact absurd hc (by decide)

theorem parseLineCounts_summary (s e ts td : Nat) :
    parseLineCounts (renderLine (Line.summary s e ts td)) = (s, e) := by
  obtain ⟨rest, hrest⟩ := summary_tokens s e ts td
  simp only [parseLineCounts]
  rw [hrest]
  rw [show List.indexOf tokenSuc ("📊".data :: "复制完成!".data :: "成功:".data ::
      (natToChars s ++ [',']) :: "失败:".data :: natToChars e :: rest) = 2 from by
    simp [List.indexOf, List.findIdx_cons,
      show ("📊".data == tokenSuc) = false from by decide,
      show ("复制完成!".data == tokenSuc) = false from by decide,
      show ("成功:".data == tokenSuc) = true from by decide]]
  rw [show List.indexOf tokenErr ("📊".data :: "复制完成!".data :: "成功:".data ::
      (natToChars s ++ [',']) :: "失败:".data :: natToChars e :: rest) = 4 from by
    simp [List.indexOf, List.findIdx_cons,
      show ("📊".data == tokenErr) = false from by decide,
      show ("复制完成!".data == tokenErr) = false from by decide,
      show ("成功:".data == tokenErr) = false from by decide,
      digitsComma_ne_tokenErr s,
      show ("失败:".data == tokenErr) = true from by decide]]
  rw [show ("📊".data :: "复制完成!".data :: "成功:".data :: (natToChars s ++ [',']) ::
      "失败:".data :: natToChars e :: rest).getD (2 + 1) [] = natToChars s ++ [','] from rfl]
  rw [show ("📊".data :: "复制完成!".data :: "成功:".data :: (natToChars s ++ [',']) ::
      "失败:".data :: natToChars e :: rest).getD (4 + 1) [] = natToChars e from rfl]
  rw [stripCommas_digits_comma, stripCommas_digits, charsToNat_natToChars,
    charsToNat_natToChars]

theorem markerCheck_summary (s e ts td : Nat) :
    markerCheck (renderLine (Line.summary s e ts td)) = true := by
  have h1 : infixOf markerSuc (renderLine (Line.summary s e ts td)) = true := by
    have hchars : renderLine (Line.summary s e ts td) =
        "📊 复制完成! ".data ++ (markerSuc ++ (natToChars s ++ (", 失败: ".data ++
          (natToChars e ++ (" | 总大小: ".data ++ (format_size ts ++ (" → ".data ++
            (format_size td ++ (if td ≠ ts then bracketChars td ts else []))))))))) := by
      simp [renderLine, markerSuc, List.append_assoc]
    rw [hchars]
    exact infixOf_append_left _ _ _ (infixOf_self_start _ _)
  have h2 : infixOf markerErr (renderLine (Line.summary s e ts td)) = true := by
    have hchars : renderLine (Line.summary s e ts td) =
        "📊 复制完成! 成功: ".data ++ (natToChars s ++ (", ".data ++ (markerErr ++
          (natToChars e ++ (" | 总大小: ".data ++ (format_size ts ++ (" → ".data ++
            (format_size td ++ (if td ≠ ts then bracketChars td ts else []))))))))) := by
      simp [renderLine, markerErr, List.append_assoc]
    rw [hchars]
    exact infixOf_append_left _ _ _ (infixOf_append_left _ _ _
      (infixOf_append_left _ _ _ (infixOf_self_start _ _)))
  unfold markerCheck
  rw [h1, h2]
  rfl

/-! ### C8: the per-file lines never match the marker check -/

theorem notmem_format_size (c : Char) (hc1 : c.isDigit = false)
    (hc2 : c ∉ ['.', 'B', 'K', 'M']) (b : Nat) : c ∉ format_size b := by
  intro h
  rcases format_size_chars b c h with h' | h'
  · rw [hc1] at h'; cases h'
  · exact hc2 h'

theorem mem_signChars (c : Char) (x : Int) (h : c ∈ signChars x) : c = '+' ∨ c = '-' := by
  unfold signChars at h
  split at h
  · simp at h; exact Or.inl h
  · split at h
    · simp at h; exact Or.inr h
    · simp at h

theorem notmem_bracketChars (c : Char) (hc1 : c.isDigit = false)
    (hc2 : c ∉ ['.', 'B', 'K', 'M', ' ', '[', ']', '+', '-']) (a b : Nat) :
    c ∉ bracketChars a b := by
  intro h
  unfold bracketChars at h
  rcases List.mem_append.mp h with h' | h'
  · rcases List.mem_append.mp h' with h'' | h''
    · rcases List.mem_append.mp h'' with h3 | h3
      · revert h3
        simp at hc2
        simp [hc2]
      · rcases mem_signChars c _ h3 with h4 | h4 <;> (subst h4; simp at hc2)
    · exact notmem_format_size c hc1 (by simp at hc2 ⊢; tauto) _ h''
  · revert h'
    simp at hc2
    simp [hc2]

theorem loss_not_in_copied (nm : String) (o n2 : Nat) (dF : FPath)
    (hnm : '失' ∉ nm.data) (hdf : '失' ∉ pathChars dF) :
    '失' ∉ renderLine (Line.copied nm o n2 dF) := by
  intro h
  have hfs : ∀ b : Nat, '失' ∉ format_size b :=
    fun b => notmem_format_size '失' (by decide) (by decide) b
  have hbr : '失' ∉ (if 0 < o then bracketChars n2 o else []) := by
    split
    · exact notmem_bracketChars '失' (by decide) (by decide) n2 o
    · simp
  simp [renderLine, List.mem_append, hnm, hdf, hfs o, hfs n2, hbr] at h

theorem copied_line_benign (nm : String) (o n2 : Nat) (dF : FPath)
    (hnm : '失' ∉ nm.data) (hdf : '失' ∉ pathChars dF) :
    markerCheck (renderLine (Line.copied nm o n2 dF)) = false := by
  have h2 : infixOf markerErr (renderLine (Line.copied nm o n2 dF)) = false :=
    infixOf_false_of_not_mem '失' _ _ (loss_not_in_copied nm o n2 dF hnm hdf)
  unfold markerCheck
  rw [h2]
  simp

theorem copyStep_line_shape (d : FPath) (st : CopyState) (f : FPath) :
    ∃ ℓ, (copyStep d st f).lines = st.lines ++ [ℓ] ∧
      (ℓ = Line.missing f ∨ ℓ = Line.errored f statErrMsg ∨ ℓ = Line.errored f sameFileMsg ∨
        ∃ o n2, ℓ = Line.copied (lastName f) o n2 d) := by
  unfold copyStep copyWrite
  repeat' split
  all_goals first
    | exact ⟨_, rfl, Or.inl rfl⟩
    | exact ⟨_, rfl, Or.inr (Or.inl rfl)⟩
    | exact ⟨_, rfl, Or.inr (Or.inr (Or.inl rfl))⟩
    | exact ⟨_, rfl, Or.inr (Or.inr (Or.inr ⟨_, _, rfl⟩))⟩

theorem cleanSrc_benign (f : FPath) (d : FPath) (hf : cleanSrc f = true)
    (hd : '失' ∉ pathChars d) (ℓ : Line)
    (hshape : ℓ = Line.missing f ∨ ℓ = Line.errored f statErrMsg ∨
      ℓ = Line.errored f sameFileMsg ∨ ∃ o n2, ℓ = Line.copied (lastName f) o n2 d) :
    markerCheck (renderLine ℓ) = false := by
  unfold cleanSrc at hf
  simp only [Bool.and_eq_true, Bool.not_eq_true', decide_eq_true_eq] at hf
  obtain ⟨⟨⟨hname, hmiss⟩, herr1⟩, herr2⟩ := hf
  rcases hshape with h | h | h | ⟨o, n2, h⟩ <;> subst h
  · unfold markerCheck
    rw [hmiss]
    simp
  · exact herr1
  · exact herr2
  · exact copied_line_benign (lastName f) o n2 d hname hd

theorem copyRun_lines_benign (d : FPath) (srcs : List FPath)
    (hsrcs : ∀ f ∈ srcs, cleanSrc f = true) (hd : '失' ∉ pathChars d) :
    ∀ st : CopyState, (∀ ℓ ∈ st.lines, markerCheck (renderLine ℓ) = false) →
      ∀ ℓ ∈ (srcs.foldl (copyStep d) st).lines, markerCheck (renderLine ℓ) = false := by
  induction srcs with
  | nil => intro st h; simpa using h
  | cons f srcs ih =>
    intro st h
    rw [List.foldl_cons]
    apply ih (fun g hg => hsrcs g (List.mem_cons_of_mem f hg))
    obtain ⟨ℓ, hl, hshape⟩ := copyStep_line_shape d st f
    rw [hl]
    intro m hm
    rcases List.mem_append.mp hm with hm' | hm'
    · exact h m hm'
    · simp only [List.mem_singleton] at hm'
      subst hm'
      exact cleanSrc_benign f d (hsrcs f (List.mem_cons_self f srcs)) hd _ hshape

theorem findCounts_copy (srcs : List FPath) (d : FPath) (fs : FS)
    (hsrcs : ∀ f ∈ srcs, cleanSrc f = true) (hd : '失' ∉ pathChars d) :
    findCounts ((copy_files_with_replace srcs d fs).lines.map renderLine) =
      ((copy_files_with_replace srcs d fs).success_count,
        (copy_files_with_replace srcs d fs).error_count) := by
  have hbenign := copyRun_lines_benign d srcs hsrcs hd (initState fs) (by simp [initState])
  have hlines : (copy_files_with_replace srcs d fs).lines =
      (srcs.foldl (copyStep d) (initState fs)).lines ++
        [Line.blank, Line.summary (copy_files_with_replace srcs d fs).success_count
          (copy_files_with_replace srcs d fs).error_count
          (copy_files_with_replace srcs d fs).total_source_size
          (copy_files_with_replace srcs d fs).total_dest_size] := rfl
  unfold findCounts
  rw [hlines, List.map_append, List.find?_append]
  rw [List.find?_eq_none.mpr (by
    intro x hx
    rcases List.mem_map.mp hx with ⟨ℓ, hℓ, rfl⟩
    simp [hbenign ℓ hℓ])]
  simp only [Option.none_or, List.map_cons, List.map_nil]
  rw [List.find?_cons_of_neg _ (by
    simp [show markerCheck (renderLine Line.blank) = false from by decide])]
  rw [List.find?_cons_of_pos _ (markerCheck_summary _ _ _ _)]
  exact parseLineCounts_summary _ _ _ _

theorem copyAll_eq_of_clean (registry : List (String × PairCfg)) :
    ∀ acc : FS × Nat × Nat, (∀ p ∈ registry, cleanPair p.2 = true) →
      registry.foldl (fun acc p =>
        let r := copy_files_with_replace p.2.source_files p.2.target_folder acc.1
        let parsed := findCounts (r.lines.map renderLine)
        (r.fs, acc.2.1 + parsed.1, acc.2.2 + parsed.2)) acc =
      registry.foldl (fun acc p =>
        let r := copy_files_with_replace p.2.source_files p.2.target_folder acc.1
        (r.fs, acc.2.1 + r.success_count, acc.2.2 + r.error_count)) acc := by
  induction registry with
  | nil => intro acc _; rfl
  | cons p rest ih =>
    intro acc hclean
    rw [List.foldl_cons, List.foldl_cons]
    have hp := hclean p (List.mem_cons_self p rest)
    unfold cleanPair at hp
    simp only [Bool.and_eq_true, List.all_eq_true, decide_eq_true_eq] at hp
    obtain ⟨hall, htf⟩ := hp
    have hfc := findCounts_copy p.2.source_files p.2.target_folder acc.1 hall htf
    simp only []
    rw [hfc]
    exact ih _ (fun q hq => hclean q (List.mem_cons_of_mem p hq))

/-- C8: in the manual-mode "copy all pairs" loop over the registry, the
printed grand total — whose per-pair contributions are recovered by
re-parsing each pair's captured summary line with the marker scan,
whitespace split and `int(...)` conversion of the source — equals, for
every starting filesystem, the loop that sums the copy engine's
structural per-pair success and failure counters directly. -/
theorem grand_total_spec (fs : FS) :
    copyAllPairs file_pairs fs = copyAllPairsDirect file_pairs fs := by
  unfold copyAllPairs copyAllPairsDirect
  exact copyAll_eq_of_clean file_pairs (fs, 0, 0) (by decide)

/-- Witness for `grand_total_spec` at the empty starting filesystem. -/
theorem grand_total_spec_witness :
    copyAllPairs file_pairs [] = copyAllPairsDirect file_pairs [] :=
  grand_total_spec []

end Formify
